import Mathlib

/-!
# snpspec: enrichment engine of `src/data.cpp`

A shallow embedding of the class `snpspec` of `src/data.cpp`: the member variables
become the fields of `State`, every member function becomes a function on `State`,
`std::map` and `std::set` become lists in iteration order, `std::rand()` becomes a
stream of draws with a cursor, and a `double` that holds a sum of `-log10` terms is
represented exactly (`LogScore`).  Logging to `std::cout` is not part of the model.
-/

namespace snpspec

/-! ## Data model -/

/-- The struct `genomic_interval`: a chromosome name with a start and an end position
(both `int` in the source). -/
structure genomic_interval where
  chrom : String
  start : Int
  end_ : Int
deriving DecidableEq

/-- The class `Interval<size_t>` stored in the gene interval trees: a range and the index of
the gene in `_row_names`. -/
structure Interval where
  start : Int
  stop : Int
  value : Nat
deriving DecidableEq

/-- Modelled from the spec: the class `IntervalTree<size_t>` is declared outside `src/`.
The spec (4.1) describes it by its contract only, a store of intervals that answers overlap
queries, so the model keeps the stored intervals in a list. -/
structure IntervalTree where
  intervals : List Interval
deriving DecidableEq

/-- The default constructed tree `IntervalTree<size_t>()` holds no interval. -/
instance : Inhabited IntervalTree := ⟨⟨[]⟩⟩

/-- Modelled from the spec: `IntervalTree::findOverlapping(start, stop, overlapping)` is declared
outside `src/`.  Spec 4.1: the query "returns all stored intervals overlapping the half-open
range".  As in the source the hits are appended to the vector passed by reference. -/
def IntervalTree.findOverlapping (t : IntervalTree) (start stop : Int)
    (overlapping : List Interval) : List Interval :=
  overlapping ++ t.intervals.filter (fun iv => decide (iv.start < stop ∧ start < iv.stop))

/-! ## `std::set` and `std::map` as lists in iteration order -/

/-- The member `std::set::count`: 1 when the key is in the set and 0 otherwise. -/
def set_count {κ : Type} [DecidableEq κ] (s : List κ) (k : κ) : Nat :=
  if k ∈ s then 1 else 0

/-- Insertion into a `std::set`: nothing happens when the key is present, otherwise the key is
placed before the first larger key. -/
def set_insert {κ : Type} [DecidableEq κ] [LT κ] [DecidableRel (fun a b : κ => a < b)]
    (k : κ) : List κ → List κ
  | [] => [k]
  | x :: rest =>
    if k = x then x :: rest
    else if k < x then k :: x :: rest
    else x :: set_insert k rest

/-- The helper `make_set` (declared outside `src/`): the `std::set` of the values of a vector. -/
def make_set (v : List Nat) : List Nat :=
  v.foldl (fun acc x => set_insert x acc) []

/-- Lookup of a key in a `std::map` (`find`): the value of the first entry with that key. -/
def map_find {κ α : Type} [DecidableEq κ] : List (κ × α) → κ → Option α
  | [], _ => none
  | e :: rest, k => if e.1 = k then some e.2 else map_find rest k

/-- The member `std::map::count`: 1 when the key has an entry and 0 otherwise. -/
def map_count {κ α : Type} [DecidableEq κ] (m : List (κ × α)) (k : κ) : Nat :=
  if (map_find m k).isSome then 1 else 0

/-- Insertion of a new entry into a `std::map`, before the first entry with a larger key. -/
def map_insert {κ α : Type} [LT κ] [DecidableRel (fun a b : κ => a < b)]
    (k : κ) (v : α) : List (κ × α) → List (κ × α)
  | [] => [(k, v)]
  | e :: rest => if k < e.1 then (k, v) :: e :: rest else e :: map_insert k v rest

/-- The operator `m[k]` of `std::map`: the value stored at `k`; when `k` has no entry a default
constructed value `d` is inserted first.  Returns the map after the access and the value. -/
def map_index {κ α : Type} [DecidableEq κ] [LT κ] [DecidableRel (fun a b : κ => a < b)]
    (m : List (κ × α)) (k : κ) (d : α) : List (κ × α) × α :=
  match map_find m k with
  | some v => (m, v)
  | none => (map_insert k d m, d)

/-- Assignment through the reference returned by `m[k]`: replaces the value of the entry that
`map_find` reads. -/
def map_assign {κ α : Type} [DecidableEq κ] : List (κ × α) → κ → α → List (κ × α)
  | [], _, _ => []
  | e :: rest, k, v => if e.1 = k then (e.1, v) :: rest else e :: map_assign rest k v

/-- The statement `m[k].push_back(x)` on a map of vectors. -/
def map_push_back {α : Type} (m : List (Nat × List α)) (k : Nat) (x : α) :
    List (Nat × List α) :=
  let r := map_index m k []
  map_assign r.1 k (r.2 ++ [x])

/-- The keys of a map, in iteration order. -/
def map_keys {κ α : Type} (m : List (κ × α)) : List κ := m.map Prod.fst

/-! ## Expression matrix and the state of a `snpspec` object -/

/-- The Eigen type `MatrixXd`; the entries are exact rationals standing for the doubles.  Reading
outside `rows x cols` is undefined in the source; `coeff` is total here and theorems that depend
on a read state the range they need. -/
structure MatrixXd where
  rows : Nat
  cols : Nat
  coeff : Nat → Nat → ℚ

/-- The member variables of the class `snpspec` that the engine reads or writes. -/
structure State where
  _user_snp_names : List String
  _null_snp_names : List String
  _snp_intervals : List (String × genomic_interval)
  _row_names : List String
  _col_names : List String
  _expression : MatrixXd
  _gene_interval_tree : List (String × IntervalTree)
  _user_genesets : List (List Nat)
  _user_snp_geneset_sizes : List Nat
  _geneset_bins : List (Nat × List (List Nat))
  _binary_sums : List ℚ
  _binary_probs : List ℚ

/-! ## Overlap resolution -/

/-- Lines 331-346 of `report_user_snp_genes`: the genes overlapping a SNP interval, searched again
with `slop` when the first search finds none.  Returns the tree map after the two accesses with
`operator[]` and the vector `gene_intervals`. -/
def report_user_snp_genes_overlaps (tree : List (String × IntervalTree))
    (snp_interval : genomic_interval) (slop : Int) :
    List (String × IntervalTree) × List Interval :=
  let gene_intervals : List Interval := []
  let r := map_index tree snp_interval.chrom default
  let gene_intervals := r.2.findOverlapping snp_interval.start snp_interval.end_ gene_intervals
  if gene_intervals.length = 0 then
    let r2 := map_index r.1 snp_interval.chrom default
    (r2.1, r2.2.findOverlapping (max 1 (snp_interval.start - slop)) (snp_interval.end_ + slop)
      gene_intervals)
  else (r.1, gene_intervals)

/-- Lines 431-444 of `bin_genesets`: the same search, written out a second time in the source. -/
def bin_genesets_overlaps (tree : List (String × IntervalTree))
    (item : String × genomic_interval) (slop : Int) :
    List (String × IntervalTree) × List Interval :=
  let genes : List Interval := []
  let r := map_index tree item.2.chrom default
  let genes := r.2.findOverlapping item.2.start item.2.end_ genes
  if genes.length = 0 then
    let r2 := map_index r.1 item.2.chrom default
    (r2.1, r2.2.findOverlapping (max 1 (item.2.start - slop)) (item.2.end_ + slop) genes)
  else (r.1, genes)

/-- The query of spec 4.1 on the whole index: the stored intervals of chromosome `chrom` that
overlap the range; a chromosome without a tree has none. -/
def query (index : List (String × IntervalTree)) (chrom : String) (start stop : Int) :
    List Interval :=
  match map_find index chrom with
  | some t => t.findOverlapping start stop []
  | none => []

/-- The policy `resolveOverlaps` in the words of spec 4.1: call `query`; if the result is empty,
retry once with the range widened by `slop`. -/
def resolveOverlaps (index : List (String × IntervalTree)) (chrom : String) (start stop : Int)
    (slop : Int) : List Interval :=
  if query index chrom start stop = [] then
    query index chrom (max 1 (start - slop)) (stop + slop)
  else query index chrom start stop

/-! ## `report_user_snp_genes` -/

/-- Lines 366-371: the text of the `genes` column.  The first gene name, then every gene of
`gene_intervals` preceded by a comma.  The call `_row_names.at` throws when the index is out of
range, which is `none` here. -/
def genes_column (row_names : List String) (gene_intervals : List Interval) : Option String :=
  match gene_intervals with
  | [] => none
  | first :: _ =>
    match row_names[first.value]? with
    | none => none
    | some name0 =>
      gene_intervals.foldlM
        (fun txt gi => (row_names[gi.value]?).map (fun nm => txt ++ "," ++ nm)) name0

/-- The body of the loop of `report_user_snp_genes` for one user SNP name.  The output stream is a
list of rows, each row the list of its tab separated columns. -/
def report_user_snp_genes_row (slop : Int) (acc : State × List (List String)) (snp : String) :
    Option (State × List (List String)) :=
  match map_find acc.1._snp_intervals snp with
  | none => some (acc.1, acc.2 ++ [["NA", "NA", "NA", snp, "NA", "NA"]])
  | some snp_interval =>
    let r := report_user_snp_genes_overlaps acc.1._gene_interval_tree snp_interval slop
    let gene_intervals := r.2
    let s := { acc.1 with _gene_interval_tree := r.1 }
    let cols := [snp_interval.chrom, toString snp_interval.start, toString snp_interval.end_,
      snp, toString gene_intervals.length]
    if gene_intervals.length > 0 then
      match genes_column s._row_names gene_intervals with
      | none => none
      | some genes =>
        some ({ s with
                _user_snp_geneset_sizes := s._user_snp_geneset_sizes ++ [gene_intervals.length],
                _user_genesets := s._user_genesets ++ [gene_intervals.map Interval.value] },
              acc.2 ++ [cols ++ [genes]])
    else some (s, acc.2 ++ [cols ++ [""]])

/-- The member function `report_user_snp_genes`: one row per user SNP name in the iteration order
of the set; `none` when a `.at` call throws. -/
def report_user_snp_genes (s : State) (slop : Int) : Option (State × List (List String)) :=
  s._user_snp_names.foldlM (report_user_snp_genes_row slop)
    (s, [["chrom", "start", "end", "name", "n_genes", "genes"]])

/-! ## `drop_snp_intervals` -/

/-- The loop of `drop_snp_intervals` from the iterator position `it` on: an entry whose name is
not in the null set is erased, any other entry is stepped over. -/
def drop_snp_intervals_loop (null_snp_names : List String) :
    List (String × genomic_interval) → List (String × genomic_interval)
  | [] => []
  | it :: rest =>
    if set_count null_snp_names it.1 = 0 then drop_snp_intervals_loop null_snp_names rest
    else it :: drop_snp_intervals_loop null_snp_names rest

/-- The member function `drop_snp_intervals`. -/
def drop_snp_intervals (s : State) : State :=
  { s with _snp_intervals := drop_snp_intervals_loop s._null_snp_names s._snp_intervals }

/-! ## `bin_genesets` -/

/-- The constant `MAX_GENES` of `bin_genesets`. -/
def MAX_GENES : Nat := 10

/-- The body of the second loop of `bin_genesets` for one entry of `_snp_intervals`. -/
def bin_genesets_item (slop : Int) (geneset_sizes : List Nat) (s : State)
    (item : String × genomic_interval) : State :=
  let r := bin_genesets_overlaps s._gene_interval_tree item slop
  let genes := r.2
  let s := { s with _gene_interval_tree := r.1 }
  let n_genes := genes.length
  if n_genes > 0 then
    let n_genes := if n_genes > MAX_GENES then MAX_GENES else n_genes
    if set_count geneset_sizes n_genes = 0 then s
    else
      let indices := genes.map Interval.value
      { s with _geneset_bins := map_push_back s._geneset_bins n_genes indices }
  else s

/-- The member function `bin_genesets`: clamp the user sizes to `MAX_GENES`, then bin the geneset
of every entry of `_snp_intervals` whose clamped size is one of the user sizes. -/
def bin_genesets (s : State) (slop : Int) : State :=
  let sizes := s._user_snp_geneset_sizes.map
    (fun size => if size > MAX_GENES then MAX_GENES else size)
  let geneset_sizes := make_set sizes
  s._snp_intervals.foldl (bin_genesets_item slop geneset_sizes)
    { s with _user_snp_geneset_sizes := sizes }

/-! ## `generate_snpset` -/

/-- The process wide generator behind `std::rand()`: the stream of values it will return and the
number of values already drawn. -/
structure Rand where
  draws : Nat → Nat
  pos : Nat

/-- One call of `std::rand()`: the value drawn and the generator afterwards. -/
def std_rand (g : Rand) : Nat × Rand :=
  (g.draws g.pos, { g with pos := g.pos + 1 })

/-- The loop of `generate_snpset` over the remaining entries of `_user_snp_geneset_sizes`.
The access `_geneset_bins[s]` is `operator[]`; the remainder by the size of an empty bin is a
division by zero and `.at(r)` throws out of range, both are `none` here. -/
def generate_snpset_loop : List Nat → List (Nat × List (List Nat)) → Rand → List (List Nat) →
    Option (List (List Nat) × List (Nat × List (List Nat)) × Rand)
  | [], bins, g, snpset => some (snpset, bins, g)
  | s :: rest, bins, g, snpset =>
    let b := map_index bins s []
    if b.2.length = 0 then none
    else
      let d := std_rand g
      let r := d.1 % b.2.length
      match b.2[r]? with
      | none => none
      | some geneset => generate_snpset_loop rest b.1 d.2 (snpset ++ [geneset])

/-- The member function `generate_snpset`: the sampled genesets, the state after the accesses to
`_geneset_bins`, and the generator after the draws. -/
def generate_snpset (s : State) (g : Rand) : Option (List (List Nat) × State × Rand) :=
  match generate_snpset_loop s._user_snp_geneset_sizes s._geneset_bins g [] with
  | none => none
  | some r => some (r.1, { s with _geneset_bins := r.2.1 }, r.2.2)

/-! ## Scores -/

/-- Exact stand-in for a `double` that holds a sum of terms `-log10(x)`: `fin q` with `0 < q` is
the real number `-log10(q)`, `inf` is positive infinity and `nan` is not-a-number.  Sums of such
terms are again of this form, because `-log10(a) + -log10(b) = -log10(a * b)`; rounding is not
modelled. -/
inductive LogScore where
  | fin (q : ℚ)
  | inf
  | nan
deriving DecidableEq

/-- The literal `0.0`, which is `-log10(1)`. -/
def LogScore.zero : LogScore := LogScore.fin 1

/-- Addition of doubles: finite values add exactly, `nan` absorbs everything, and a sum with
positive infinity is positive infinity. -/
def LogScore.add : LogScore → LogScore → LogScore
  | LogScore.fin a, LogScore.fin b => LogScore.fin (a * b)
  | LogScore.nan, _ => LogScore.nan
  | _, LogScore.nan => LogScore.nan
  | _, _ => LogScore.inf

instance : Add LogScore := ⟨LogScore.add⟩

/-- The expression `-log10(x)`: finite for positive `x`, positive infinity at `0`, `nan` for
negative `x`. -/
def LogScore.neg_log10 (x : ℚ) : LogScore :=
  if 0 < x then LogScore.fin x else if x = 0 then LogScore.inf else LogScore.nan

/-- The test `std::isfinite`. -/
def LogScore.isfinite : LogScore → Bool
  | LogScore.fin _ => true
  | _ => false

/-- The comparison `a <= b` of doubles; `-log10` reverses the order of its arguments and every
comparison with `nan` is false. -/
def LogScore.le : LogScore → LogScore → Bool
  | LogScore.fin a, LogScore.fin b => decide (b ≤ a)
  | LogScore.fin _, LogScore.inf => true
  | LogScore.inf, LogScore.inf => true
  | _, _ => false

/-- The comparison `a < b` of doubles. -/
def LogScore.lt : LogScore → LogScore → Bool
  | LogScore.fin a, LogScore.fin b => decide (b < a)
  | LogScore.fin _, LogScore.inf => true
  | _, _ => false

instance : Zero LogScore := ⟨LogScore.zero⟩

/-- The real number a score stands for. -/
def LogScore.Denotes : LogScore → ℝ → Prop
  | LogScore.fin q, x => 0 < q ∧ x = -Real.logb 10 (q : ℝ)
  | _, _ => False

/-- Modelled from the spec: `gsl_ran_binomial_pdf(k, p, n)` belongs to the GNU Scientific
Library.  Spec 4.4: "binomialPMF is the exact binomial probability mass function", the probability
of `k` successes in `n` trials of success probability `p`, which is 0 when `k > n`.  It is a
probability for `0 <= p <= 1` only. -/
def gsl_ran_binomial_pdf (k : Nat) (p : ℚ) (n : Nat) : ℚ :=
  (n.choose k : ℚ) * p ^ k * (1 - p) ^ (n - k)

/-- The cast `(int) x` of a double: truncation toward zero. -/
def int_cast (x : ℚ) : Int := Int.tdiv x.num x.den

/-- The conversion of an `int` argument to the `unsigned int` parameter of
`gsl_ran_binomial_pdf`. -/
def to_unsigned (n : Int) : Nat := (n % 4294967296).toNat

/-- The expression `_expression.colwise().sum()`. -/
def colwise_sum (m : MatrixXd) : List ℚ :=
  (List.range m.cols).map (fun c => ((List.range m.rows).map (fun r => m.coeff r c)).sum)

/-- Lines 73-74 of the constructor, the branch taken for a binary matrix: the column sums and
the column sums divided by the number of rows. -/
def binary_stats (s : State) : State :=
  let sums := colwise_sum s._expression
  { s with _binary_sums := sums,
           _binary_probs := sums.map (fun x => x / (s._expression.rows : ℚ)) }

/-- The inner loop of `score_binary`: the number `k` of genes of the geneset whose entry in
column `col` is positive. -/
def count_hits (m : MatrixXd) (col : Nat) (geneset : List Nat) : Nat :=
  geneset.foldl (fun k gene_id => if m.coeff gene_id col > 0 then k + 1 else k) 0

/-- The loop of `score_binary` over the genesets: the value of the variable `score` when the loop
ends.  Reading `_binary_sums(col)` or `_binary_probs(col)` outside the vector is undefined in the
source and reads 0 here. -/
def score_binary_loop (s : State) (col : Nat) (snpset : List (List Nat)) : LogScore :=
  let n := int_cast (s._binary_sums.getD col 0)
  let p := s._binary_probs.getD col 0
  snpset.foldl
    (fun score geneset =>
      let k := count_hits s._expression col geneset
      score + LogScore.neg_log10 (gsl_ran_binomial_pdf k p (to_unsigned n)))
    LogScore.zero

/-- The member function `score_binary`: the accumulated score if it is finite, else `0.0`. -/
def score_binary (s : State) (col : Nat) (snpset : List (List Nat)) : LogScore :=
  let score := score_binary_loop s col snpset
  if score.isfinite then score else LogScore.zero

/-! ## The permutation loop of the constructor -/

/-- One line of `pvalues.txt`: name, pvalue, nulls_observed, nulls_tested. -/
structure pvalue_row where
  name : String
  pvalue : ℚ
  nulls_observed : Nat
  nulls_tested : Nat
deriving DecidableEq

/-- The constant `LOOPS` of the constructor. -/
def LOOPS : Nat := 1000

/-- The loop over `j` of lines 129-133 when one thread runs all the trials in order: the
remaining number of trials, the state, the generator and `thread_observed`. -/
def null_trials (i : Nat) (user_score : LogScore) :
    Nat → State → Rand → Nat → Option (State × Rand × Nat)
  | 0, s, g, thread_observed => some (s, g, thread_observed)
  | j + 1, s, g, thread_observed =>
    match generate_snpset s g with
    | none => none
    | some r =>
      if LogScore.le user_score (score_binary r.2.1 i r.1) then
        null_trials i user_score j r.2.1 r.2.2 (thread_observed + 1)
      else null_trials i user_score j r.2.1 r.2.2 thread_observed

/-- The body of the loop over the columns, lines 108-146, for column `i`: the row written to
`pvalues.txt`, the state and the generator afterwards. -/
def test_column (s : State) (g : Rand) (i : Nat) : Option (pvalue_row × State × Rand) :=
  let user_score := score_binary s i s._user_genesets
  if LogScore.le user_score LogScore.zero then
    match s._col_names[i]? with
    | none => none
    | some name => some (⟨name, 1, 0, 0⟩, s, g)
  else
    let nulls_tested := 0
    let nulls_observed := 0
    match null_trials i user_score LOOPS s g 0 with
    | none => none
    | some r =>
      let nulls_observed := nulls_observed + r.2.2
      let nulls_tested := nulls_tested + LOOPS
      let pvalue : ℚ := (nulls_observed : ℚ) / (nulls_tested : ℚ)
      match r.1._col_names[i]? with
      | none => none
      | some name => some (⟨name, pvalue, nulls_observed, nulls_tested⟩, r.1, r.2.1)

/-- The loop over the columns from column `i` on, with `todo` columns left. -/
def test_columns : Nat → Nat → State → Rand → List pvalue_row →
    Option (List pvalue_row × State × Rand)
  | 0, _, s, g, stream => some (stream, s, g)
  | todo + 1, i, s, g, stream =>
    match test_column s g i with
    | none => none
    | some r => test_columns todo (i + 1) r.2.1 r.2.2 (stream ++ [r.1])

/-- Lines 105-148 of the constructor: the rows of `pvalues.txt` below the header line. -/
def pvalues (s : State) (g : Rand) : Option (List pvalue_row × State × Rand) :=
  test_columns s._expression.cols 0 s g []

/-- Lines 61, 64 and 89 of the constructor, the catalog build: `report_user_snp_genes`, then
`drop_snp_intervals`, then `bin_genesets`. -/
def catalog_build (s : State) (slop : Int) : Option State :=
  match report_user_snp_genes s slop with
  | none => none
  | some r => some (bin_genesets (drop_snp_intervals r.1) slop)

/-! ## `read_bed_interval_tree` -/

/-- The struct `BEDRow` read from a BED file: an interval and a name. -/
structure BEDRow where
  i : genomic_interval
  name : String
deriving DecidableEq

/-- Line 206: the `std::set` built from the whitelist vector. -/
def whiteset_of (whitelist : List String) : List String :=
  whitelist.foldl (fun acc x => set_insert x acc) []

/-- Lines 214-217: the loop `index[whitelist.at(i)] = i` from position `i` on. -/
def whitelist_index_loop : List String → Nat → List (String × Nat) → List (String × Nat)
  | [], _, index => index
  | name :: rest, i, index =>
    whitelist_index_loop rest (i + 1) (map_assign (map_index index name 0).1 name i)

/-- The body of the loop of `read_bed_interval_tree` over the rows of the file, lines 221-232:
the map `intervals`, the map `index` and the counter `skipped_genes`. -/
def read_bed_interval_tree_row (whiteset : List String)
    (acc : List (String × List Interval) × List (String × Nat) × Nat) (row : BEDRow) :
    List (String × List Interval) × List (String × Nat) × Nat :=
  if set_count whiteset row.name ≠ 0 then
    let ix := map_index acc.2.1 row.name 0
    let iv := map_index acc.1 row.i.chrom []
    (map_assign iv.1 row.i.chrom (iv.2 ++ [⟨row.i.start, row.i.end_, ix.2⟩]), ix.1, acc.2.2)
  else (acc.1, acc.2.1, acc.2.2 + 1)

/-- The body of the loop over the chromosomes, lines 241-244:
`tree[item.first] = IntervalTree<size_t>(intervals[item.first])`.  The constructor of the tree,
declared outside `src/`, is modelled as storing the intervals it is given. -/
def read_bed_interval_tree_chrom
    (acc : List (String × List Interval) × List (String × IntervalTree))
    (item : String × List Interval) :
    List (String × List Interval) × List (String × IntervalTree) :=
  let iv := map_index acc.1 item.1 []
  (iv.1, map_assign (map_index acc.2 item.1 default).1 item.1 ⟨iv.2⟩)

/-- The member function `read_bed_interval_tree` on the rows read from the file: the tree map
and the value of `skipped_genes` that is logged. -/
def read_bed_interval_tree (rows : List BEDRow) (whitelist : List String)
    (tree : List (String × IntervalTree)) : List (String × IntervalTree) × Nat :=
  let whiteset := whiteset_of whitelist
  let index := whitelist_index_loop whitelist 0 []
  let r := rows.foldl (read_bed_interval_tree_row whiteset) ([], index, 0)
  ((r.1.foldl read_bed_interval_tree_chrom (r.1, tree)).2, r.2.2)

/-! ## The parallel region of the permutation loop -/

/-- Lines 125-133, the private part of one thread of the parallel region: `assigned` lists the
values of `j` that `omp for` gives to the thread, in the order the thread runs them, and
`surrogate j` is the value of `generate_snpset()` in trial `j`.  The result is
`thread_observed`. -/
def thread_trials (s : State) (i : Nat) (user_score : LogScore)
    (surrogate : Nat → List (List Nat)) (assigned : List Nat) : Nat :=
  assigned.foldl
    (fun thread_observed j =>
      if LogScore.le user_score (score_binary s i (surrogate j)) then thread_observed + 1
      else thread_observed)
    0

/-- Lines 119-139, the parallel region: `nulls_observed` starts at 0 and every thread adds its
`thread_observed` inside the critical section; `threads` lists the threads in the order in which
they enter it. -/
def parallel_trials (s : State) (i : Nat) (user_score : LogScore)
    (surrogate : Nat → List (List Nat)) (threads : List (List Nat)) : Nat :=
  threads.foldl
    (fun nulls_observed assigned =>
      nulls_observed + thread_trials s i user_score surrogate assigned)
    0

/-! ## Auxiliary definitions used to state the theorems -/

/-- The value `m[k]` read without inserting: the vector at `k`, empty when there is none. -/
def bin_of {α : Type} (m : List (Nat × List α)) (k : Nat) : List α := (map_find m k).getD []

/-- The bin key of a geneset with `n` genes: `n` clamped to `MAX_GENES`. -/
def bin_key (n : Nat) : Nat := if n > MAX_GENES then MAX_GENES else n

/-- The gene indices resolved for an interval: the values of `resolveOverlaps`. -/
def resolved_genes (index : List (String × IntervalTree)) (iv : genomic_interval) (slop : Int) :
    List Nat :=
  (resolveOverlaps index iv.chrom iv.start iv.end_ slop).map Interval.value

/-- Whether an entry of `_snp_intervals` is binned under key `k`: its resolved geneset is not empty,
its clamped size is `k`, and `k` is one of the wanted sizes. -/
def binned (index : List (String × IntervalTree)) (slop : Int) (geneset_sizes : List Nat)
    (k : Nat) (item : String × genomic_interval) : Bool :=
  decide (resolved_genes index item.2 slop ≠ []
    ∧ bin_key (resolved_genes index item.2 slop).length = k ∧ k ∈ geneset_sizes)

/-- The geneset that `report_user_snp_genes` records for a user SNP name: the resolved genes of
its reference interval, when the name has a reference interval and the resolved geneset is not
empty. -/
def user_geneset (snp_intervals : List (String × genomic_interval))
    (index : List (String × IntervalTree)) (slop : Int) (snp : String) : Option (List Nat) :=
  match map_find snp_intervals snp with
  | none => none
  | some iv =>
    if resolved_genes index iv slop = [] then none else some (resolved_genes index iv slop)

/-- Every gene index stored in the trees is below `n`, the number of row names. -/
def tree_values_in_range (index : List (String × IntervalTree)) (n : Nat) : Prop :=
  ∀ e ∈ index, ∀ iv ∈ e.2.intervals, iv.value < n

/-- Spec 4.4, "total successes across genes for that condition": the number of rows whose entry
in column `col` is positive. -/
def success_count (m : MatrixXd) (col : Nat) : Nat :=
  ((List.range m.rows).filter (fun r => decide (m.coeff r col > 0))).length

/-- Spec 4.4, the term of one geneset: `-log10(binomialPMF(k; n, p))` with `k` the number of
members of the geneset whose value in the column is positive, `n` the success count of the column
and `p = n / numGenes`. -/
def score_term_spec (m : MatrixXd) (col : Nat) (geneset : List Nat) : LogScore :=
  LogScore.neg_log10
    (gsl_ran_binomial_pdf (geneset.countP (fun gene => decide (m.coeff gene col > 0)))
      ((success_count m col : ℚ) / (m.rows : ℚ)) (success_count m col))

/-- Spec 4.4, the accumulated score: the sum of the terms of the genesets. -/
def score_sum_spec (m : MatrixXd) (col : Nat) (genesets : List (List Nat)) : LogScore :=
  (genesets.map (score_term_spec m col)).sum

/-- The surrogate set of trial `j` when the trials draw from the generator `g` in increasing
order of `j`, one draw per entry of the template. -/
def trial_snpset (s : State) (g : Rand) (j : Nat) : List (List Nat) :=
  match generate_snpset s { g with pos := g.pos + j * s._user_snp_geneset_sizes.length } with
  | some r => r.1
  | none => []

/-- The interval stored for a kept row of the gene BED file: the range of the row and the index
found for its name. -/
def stored_interval (index : List (String × Nat)) (row : BEDRow) : Interval :=
  ⟨row.i.start, row.i.end_, (map_find index row.name).getD 0⟩

/-- The number of intervals stored in a tree map. -/
def stored_count (tree : List (String × IntervalTree)) : Nat :=
  (tree.map (fun e => e.2.intervals.length)).sum

/-- The only change from the tree map `before` to the tree map `after` is that chromosomes
without a tree may have received a default constructed, empty tree: every tree of `before` is the
tree of the same chromosome in `after`, and every other tree of `after` is empty. -/
def only_empty_trees_added (before after : List (String × IntervalTree)) : Prop :=
  (∀ c t, map_find before c = some t → map_find after c = some t)
  ∧ (∀ c t, map_find after c = some t →
      map_find before c = some t ∨ (map_find before c = none ∧ t = default))

/-! ## Concrete inputs -/

/-- A catalog whose user sizes are `[2, 2, 5]`: chromosome `chr1` carries three genes and
chromosome `chr2` five; `rs2` and `rs4` resolve to three genes, `rs1` to two and `rs3` to five. -/
def catalog_state : State :=
  { _user_snp_names := [],
    _null_snp_names := ["rs1", "rs2", "rs3", "rs4"],
    _snp_intervals := [("rs1", ⟨"chr1", 160, 170⟩), ("rs2", ⟨"chr1", 190, 195⟩),
      ("rs3", ⟨"chr2", 12, 13⟩), ("rs4", ⟨"chr1", 185, 186⟩)],
    _row_names := ["g0", "g1", "g2", "g3", "g4", "g5", "g6", "g7"],
    _col_names := ["c0"],
    _expression := ⟨8, 1, fun _ _ => 0⟩,
    _gene_interval_tree :=
      [("chr1", ⟨[⟨100, 200, 0⟩, ⟨150, 250, 1⟩, ⟨180, 300, 2⟩]⟩),
       ("chr2", ⟨[⟨10, 20, 3⟩, ⟨10, 20, 4⟩, ⟨10, 20, 5⟩, ⟨10, 20, 6⟩, ⟨10, 20, 7⟩]⟩)],
    _user_genesets := [[0, 1], [0, 1], [3, 4, 5, 6, 7]],
    _user_snp_geneset_sizes := [2, 2, 5],
    _geneset_bins := [],
    _binary_sums := [],
    _binary_probs := [] }

/-- An input in which the only user SNP that resolves to genes, `rsU` with two genes, is not in
the null set, and no SNP of the null set resolves to two genes: `rsN` lies in a gene desert and
`rsM` overlaps one gene. -/
def desert_state : State :=
  { _user_snp_names := ["rsU", "rsX"],
    _null_snp_names := ["rsM", "rsN"],
    _snp_intervals := [("rsM", ⟨"chr1", 120, 121⟩), ("rsN", ⟨"chr1", 5000, 5010⟩),
      ("rsU", ⟨"chr1", 160, 170⟩)],
    _row_names := ["g0", "g1"],
    _col_names := ["c0"],
    _expression := ⟨2, 1, fun r _ => if r = 0 then 1 else 0⟩,
    _gene_interval_tree := [("chr1", ⟨[⟨100, 200, 0⟩, ⟨150, 250, 1⟩]⟩)],
    _user_genesets := [],
    _user_snp_geneset_sizes := [],
    _geneset_bins := [],
    _binary_sums := [],
    _binary_probs := [] }

/-- An input with eleven genes under one user SNP: `rsA` overlaps all eleven genes of `chr1`,
`rsB` has no reference interval, and `rsC` lies where no gene is within reach. -/
def crowded_state : State :=
  { _user_snp_names := ["rsA", "rsB", "rsC"],
    _null_snp_names := ["rsA"],
    _snp_intervals := [("rsA", ⟨"chr1", 12, 13⟩), ("rsC", ⟨"chr1", 9000, 9001⟩)],
    _row_names := ["g0", "g1", "g2", "g3", "g4", "g5", "g6", "g7", "g8", "g9", "g10"],
    _col_names := ["c0"],
    _expression := ⟨11, 1, fun _ _ => 0⟩,
    _gene_interval_tree :=
      [("chr1", ⟨[⟨10, 20, 0⟩, ⟨10, 20, 1⟩, ⟨10, 20, 2⟩, ⟨10, 20, 3⟩, ⟨10, 20, 4⟩, ⟨10, 20, 5⟩,
        ⟨10, 20, 6⟩, ⟨10, 20, 7⟩, ⟨10, 20, 8⟩, ⟨10, 20, 9⟩, ⟨10, 20, 10⟩]⟩)],
    _user_genesets := [],
    _user_snp_geneset_sizes := [],
    _geneset_bins := [],
    _binary_sums := [],
    _binary_probs := [] }

/-- The index of the scenarios of spec 8: one gene `[100, 200)` on `chr1`. -/
def one_gene_index : List (String × IntervalTree) := [("chr1", ⟨[⟨100, 200, 0⟩]⟩)]

/-- A state ready for sampling: the template is `[1, 1]` and the bin of size 1 holds the two
genesets `[0]` and `[1]`. -/
def sampling_state : State :=
  { _user_snp_names := [],
    _null_snp_names := [],
    _snp_intervals := [],
    _row_names := ["g0", "g1", "g2"],
    _col_names := ["c0"],
    _expression := ⟨3, 1, fun r _ => if r = 0 then 1 else 0⟩,
    _gene_interval_tree := [],
    _user_genesets := [[0], [0]],
    _user_snp_geneset_sizes := [1, 1],
    _geneset_bins := [(1, [[0], [1]])],
    _binary_sums := [1],
    _binary_probs := [1 / 3] }

/-- A state whose only column has no active gene and whose bins are empty: the user geneset
scores 0 in column 0 and `generate_snpset` could not sample. -/
def vacuous_state : State :=
  binary_stats
    { _user_snp_names := [],
      _null_snp_names := [],
      _snp_intervals := [],
      _row_names := ["g0", "g1"],
      _col_names := ["c0"],
      _expression := ⟨2, 1, fun _ _ => 0⟩,
      _gene_interval_tree := [],
      _user_genesets := [[0, 1]],
      _user_snp_geneset_sizes := [2],
      _geneset_bins := [],
      _binary_sums := [],
      _binary_probs := [] }

/-- A state with one active gene out of three, the user geneset `[0]` and the bin
`[[0], [1]]` for size 1: a column that is tested. -/
def tested_state : State :=
  binary_stats
    { _user_snp_names := [],
      _null_snp_names := [],
      _snp_intervals := [],
      _row_names := ["g0", "g1", "g2"],
      _col_names := ["c0"],
      _expression := ⟨3, 1, fun r _ => if r = 0 then 1 else 0⟩,
      _gene_interval_tree := [],
      _user_genesets := [[0]],
      _user_snp_geneset_sizes := [1],
      _geneset_bins := [(1, [[0], [1]])],
      _binary_sums := [],
      _binary_probs := [] }

/-- An index in which the gene of row 0 has two intervals on `chr1`, as a gene with two
transcripts has in a BED file: a SNP under both resolves to the geneset `[0, 0]`. -/
def two_transcript_index : List (String × IntervalTree) :=
  [("chr1", ⟨[⟨100, 200, 0⟩, ⟨150, 250, 0⟩]⟩)]

/-- An input whose only SNP lies on `chr2` while the gene intervals are all on `chr1`. -/
def offmap_state : State :=
  { _user_snp_names := ["rsU"],
    _null_snp_names := ["rsU"],
    _snp_intervals := [("rsU", ⟨"chr2", 100, 101⟩)],
    _row_names := ["g0"],
    _col_names := ["c0"],
    _expression := ⟨1, 1, fun _ _ => 0⟩,
    _gene_interval_tree := [("chr1", ⟨[⟨100, 200, 0⟩]⟩)],
    _user_genesets := [],
    _user_snp_geneset_sizes := [],
    _geneset_bins := [],
    _binary_sums := [],
    _binary_probs := [] }

/-- A state with two columns: in column `c0` one gene out of three is active and the column is
tested, in column `c1` no gene is active and the column is skipped. -/
def two_column_state : State :=
  binary_stats
    { _user_snp_names := [],
      _null_snp_names := [],
      _snp_intervals := [],
      _row_names := ["g0", "g1", "g2"],
      _col_names := ["c0", "c1"],
      _expression := ⟨3, 2, fun r c => if r = 0 ∧ c = 0 then 1 else 0⟩,
      _gene_interval_tree := [],
      _user_genesets := [[0]],
      _user_snp_geneset_sizes := [1],
      _geneset_bins := [(1, [[0], [1]])],
      _binary_sums := [],
      _binary_probs := [] }

/-- The 1000 trials divided among four threads in blocks of 250, the threads entering the
critical section in the order 2, 0, 3, 1. -/
def four_threads : List (List Nat) :=
  [List.range' 500 250, List.range' 0 250, List.range' 750 250, List.range' 250 250]

/-- Four rows of a gene BED file: `g0` on `chr1`, `gX`, which the expression matrix does not
have, `g1` on `chr2`, and a second interval of `g0` on `chr1`. -/
def gene_rows : List BEDRow :=
  [⟨⟨"chr1", 100, 200⟩, "g0"⟩, ⟨⟨"chr1", 300, 400⟩, "gX"⟩, ⟨⟨"chr2", 10, 20⟩, "g1"⟩,
    ⟨⟨"chr1", 150, 250⟩, "g0"⟩]

/-! ## Lemmas on the map model and on overlap resolution -/

theorem mem_set_insert {κ : Type} [DecidableEq κ] [LT κ] [DecidableRel (fun a b : κ => a < b)]
    (k a : κ) (l : List κ) : a ∈ set_insert k l ↔ a = k ∨ a ∈ l := by
  induction l with
  | nil => simp [set_insert]
  | cons x rest ih =>
    unfold set_insert
    split
    · next h => subst h; simp
    · split
      · simp
      · simp [ih]; tauto

theorem mem_make_set_aux (v acc : List Nat) (a : Nat) :
    a ∈ v.foldl (fun acc x => set_insert x acc) acc ↔ a ∈ acc ∨ a ∈ v := by
  induction v generalizing acc with
  | nil => simp
  | cons x rest ih => simp [ih, mem_set_insert]; tauto

theorem mem_make_set (v : List Nat) (a : Nat) : a ∈ make_set v ↔ a ∈ v := by
  simp [make_set, mem_make_set_aux]

theorem set_count_eq_zero {κ : Type} [DecidableEq κ]
    (s : List κ) (k : κ) : set_count s k = 0 ↔ k ∉ s := by
  unfold set_count; split <;> simp [*]

theorem map_find_map_insert {κ α : Type} [DecidableEq κ] [LT κ] [DecidableRel (fun a b : κ => a < b)]
    (m : List (κ × α)) (k k2 : κ) (d : α) (h : map_find m k = none) :
    map_find (map_insert k d m) k2 = if k = k2 then some d else map_find m k2 := by
  induction m with
  | nil => simp [map_insert, map_find]
  | cons e rest ih =>
    have hk : ¬ e.1 = k := by
      intro he; simp [map_find, he] at h
    have hr : map_find rest k = none := by
      simpa [map_find, hk] using h
    unfold map_insert
    split
    · simp [map_find]
    · simp only [map_find, ih hr]
      by_cases h1 : e.1 = k2
      · have : ¬ k = k2 := fun h2 => hk (h1.trans h2.symm)
        simp [h1, this]
      · simp [h1]

theorem map_find_map_index {κ α : Type} [DecidableEq κ] [LT κ] [DecidableRel (fun a b : κ => a < b)]
    (m : List (κ × α)) (k k2 : κ) (d : α) :
    map_find (map_index m k d).1 k2 = if k = k2 then some (map_index m k d).2 else map_find m k2 := by
  unfold map_index
  cases h : map_find m k with
  | none => simp [map_find_map_insert m k k2 d h]
  | some v =>
    by_cases hk : k = k2
    · subst hk; simp [h]
    · simp [hk]

theorem map_index_snd {κ α : Type} [DecidableEq κ] [LT κ] [DecidableRel (fun a b : κ => a < b)]
    (m : List (κ × α)) (k : κ) (d : α) :
    (map_index m k d).2 = (map_find m k).getD d := by
  unfold map_index
  cases h : map_find m k <;> simp

theorem map_find_map_assign {κ α : Type} [DecidableEq κ]
    (m : List (κ × α)) (k k2 : κ) (v : α) :
    map_find (map_assign m k v) k2
      = if k = k2 ∧ (map_find m k).isSome then some v else map_find m k2 := by
  induction m with
  | nil => simp [map_assign, map_find]
  | cons e rest ih =>
    unfold map_assign
    by_cases he : e.1 = k
    · by_cases hk : k = k2
      · subst hk; simp [he, map_find]
      · have : ¬ e.1 = k2 := fun h => hk (he.symm.trans h)
        simp [he, map_find, hk, this]
    · simp only [he, if_false, map_find, ih]
      by_cases h2 : e.1 = k2
      · have : ¬ k = k2 := fun h => he (h2.trans h.symm)
        simp [h2, this]
      · simp [h2]

theorem map_keys_map_assign {κ α : Type} [DecidableEq κ]
    (m : List (κ × α)) (k : κ) (v : α) :
    map_keys (map_assign m k v) = map_keys m := by
  induction m with
  | nil => rfl
  | cons e rest ih =>
    unfold map_assign
    split
    · simp [map_keys]
    · simp only [map_keys, List.map_cons] at ih ⊢
      rw [ih]

theorem mem_map_keys_map_insert {κ α : Type} [LT κ] [DecidableRel (fun a b : κ => a < b)]
    (m : List (κ × α)) (k a : κ) (d : α) :
    a ∈ map_keys (map_insert k d m) ↔ a = k ∨ a ∈ map_keys m := by
  induction m with
  | nil => simp [map_insert, map_keys]
  | cons e rest ih =>
    unfold map_insert
    split
    · simp [map_keys]
    · simp only [map_keys, List.map_cons, List.mem_cons] at ih ⊢
      rw [ih]; tauto

theorem mem_map_keys_iff {κ α : Type} [DecidableEq κ]
    (m : List (κ × α)) (a : κ) :
    a ∈ map_keys m ↔ (map_find m a).isSome := by
  induction m with
  | nil => simp [map_keys, map_find]
  | cons e rest ih =>
    simp only [map_keys, List.map_cons, List.mem_cons, map_find] at ih ⊢
    by_cases h : e.1 = a
    · simp [h]
    · simp only [h, if_false]
      rw [← ih]
      constructor
      · rintro (h1 | h1)
        · exact absurd h1.symm h
        · exact h1
      · exact Or.inr


theorem bin_of_map_push_back {α : Type} (m : List (Nat × List α)) (k k2 : Nat) (x : α) :
    bin_of (map_push_back m k x) k2 = if k = k2 then bin_of m k2 ++ [x] else bin_of m k2 := by
  unfold bin_of map_push_back
  simp only [map_find_map_assign, map_find_map_index, map_index_snd]
  by_cases h : k = k2
  · subst h; simp
  · simp [h]

theorem mem_map_keys_map_push_back {α : Type} (m : List (Nat × List α)) (k a : Nat) (x : α) :
    a ∈ map_keys (map_push_back m k x) ↔ a = k ∨ a ∈ map_keys m := by
  unfold map_push_back
  rw [map_keys_map_assign]
  simp only [mem_map_keys_iff, map_find_map_index]
  by_cases h : k = a
  · subst h; simp
  · simp [h]; exact fun h2 => absurd h2.symm h



/-! overlaps -/

theorem map_index_idem {κ α : Type} [DecidableEq κ] [LT κ] [DecidableRel (fun a b : κ => a < b)]
    (m : List (κ × α)) (k : κ) (d : α) :
    map_index (map_index m k d).1 k d = map_index m k d := by
  have h := map_find_map_index m k k d
  simp only [if_true] at h
  generalize map_index m k d = r at h ⊢
  unfold map_index
  rw [h]

theorem query_eq (tm : List (String × IntervalTree)) (c : String) (a b : Int) :
    query tm c a b = ((map_find tm c).getD default).findOverlapping a b [] := by
  unfold query
  cases map_find tm c <;> simp [IntervalTree.findOverlapping, default]

theorem query_map_index (tm : List (String × IntervalTree)) (c c2 : String) (a b : Int) :
    query (map_index tm c default).1 c2 a b = query tm c2 a b := by
  rw [query_eq, query_eq, map_find_map_index, map_index_snd]
  by_cases h : c = c2
  · subst h; simp
  · simp [h]

theorem resolveOverlaps_map_index (tm : List (String × IntervalTree)) (c c2 : String) (a b : Int)
    (slop : Int) :
    resolveOverlaps (map_index tm c default).1 c2 a b slop = resolveOverlaps tm c2 a b slop := by
  simp only [resolveOverlaps, query_map_index]

theorem report_user_snp_genes_overlaps_fst (tm : List (String × IntervalTree))
    (iv : genomic_interval) (slop : Int) :
    (report_user_snp_genes_overlaps tm iv slop).1 = (map_index tm iv.chrom default).1 := by
  unfold report_user_snp_genes_overlaps
  simp only [map_index_idem]
  split <;> rfl

theorem report_user_snp_genes_overlaps_snd (tm : List (String × IntervalTree))
    (iv : genomic_interval) (slop : Int) :
    (report_user_snp_genes_overlaps tm iv slop).2
      = resolveOverlaps tm iv.chrom iv.start iv.end_ slop := by
  unfold report_user_snp_genes_overlaps resolveOverlaps
  simp only [map_index_idem, query_eq, map_index_snd, List.length_eq_zero]
  split
  · next h => simp [h]
  · next h => simp [h]

theorem bin_genesets_overlaps_fst (tm : List (String × IntervalTree))
    (item : String × genomic_interval) (slop : Int) :
    (bin_genesets_overlaps tm item slop).1 = (map_index tm item.2.chrom default).1 := by
  unfold bin_genesets_overlaps
  simp only [map_index_idem]
  split <;> rfl

theorem bin_genesets_overlaps_snd (tm : List (String × IntervalTree))
    (item : String × genomic_interval) (slop : Int) :
    (bin_genesets_overlaps tm item slop).2
      = resolveOverlaps tm item.2.chrom item.2.start item.2.end_ slop := by
  unfold bin_genesets_overlaps resolveOverlaps
  simp only [map_index_idem, query_eq, map_index_snd, List.length_eq_zero]
  split
  · next h => simp [h]
  · next h => simp [h]

/-! ## Lemmas on `bin_genesets` and `drop_snp_intervals` -/

theorem bin_key_eq_min (n : Nat) : bin_key n = min n 10 := by
  unfold bin_key MAX_GENES
  split <;> omega

theorem bin_genesets_item_eq (slop : Int) (gs : List Nat) (s : State)
    (item : String × genomic_interval) :
    bin_genesets_item slop gs s item =
      { s with
        _gene_interval_tree := (map_index s._gene_interval_tree item.2.chrom default).1,
        _geneset_bins :=
          if resolved_genes s._gene_interval_tree item.2 slop ≠ []
              ∧ bin_key (resolved_genes s._gene_interval_tree item.2 slop).length ∈ gs then
            map_push_back s._geneset_bins
              (bin_key (resolved_genes s._gene_interval_tree item.2 slop).length)
              (resolved_genes s._gene_interval_tree item.2 slop)
          else s._geneset_bins } := by
  unfold bin_genesets_item
  simp only [bin_genesets_overlaps_fst, bin_genesets_overlaps_snd, resolved_genes, bin_key,
    set_count_eq_zero, List.length_map, ne_eq, List.map_eq_nil_iff, gt_iff_lt, List.length_pos]
  split_ifs <;> simp_all

theorem resolved_genes_map_index (tm : List (String × IntervalTree)) (c : String)
    (iv : genomic_interval) (slop : Int) :
    resolved_genes (map_index tm c default).1 iv slop = resolved_genes tm iv slop := by
  simp only [resolved_genes, resolveOverlaps_map_index]

theorem binned_map_index (tm : List (String × IntervalTree)) (c : String) (slop : Int)
    (gs : List Nat) (k : Nat) :
    binned (map_index tm c default).1 slop gs k = binned tm slop gs k := by
  funext item
  simp only [binned, resolved_genes_map_index]

/-- What the loop of `bin_genesets` leaves behind, entry by entry. -/
theorem foldl_bin_genesets_item (slop : Int) (gs : List Nat)
    (items : List (String × genomic_interval)) (s : State) :
    (items.foldl (bin_genesets_item slop gs) s)._user_snp_geneset_sizes
        = s._user_snp_geneset_sizes
    ∧ (items.foldl (bin_genesets_item slop gs) s)._user_genesets = s._user_genesets
    ∧ (items.foldl (bin_genesets_item slop gs) s)._snp_intervals = s._snp_intervals
    ∧ (∀ k, bin_of (items.foldl (bin_genesets_item slop gs) s)._geneset_bins k
        = bin_of s._geneset_bins k
          ++ (items.filter (binned s._gene_interval_tree slop gs k)).map
              (fun it => resolved_genes s._gene_interval_tree it.2 slop))
    ∧ (∀ a, a ∈ map_keys (items.foldl (bin_genesets_item slop gs) s)._geneset_bins ↔
        a ∈ map_keys s._geneset_bins
          ∨ ∃ it ∈ items, binned s._gene_interval_tree slop gs a it = true) := by
  induction items generalizing s with
  | nil => simp
  | cons item rest ih =>
    simp only [List.foldl_cons]
    obtain ⟨h1, h2, h3, h4, h5⟩ := ih (bin_genesets_item slop gs s item)
    rw [h1, h2, h3]
    refine ⟨?_, ?_, ?_, ?_, ?_⟩
    · rw [bin_genesets_item_eq]
    · rw [bin_genesets_item_eq]
    · rw [bin_genesets_item_eq]
    · intro k
      rw [h4 k, bin_genesets_item_eq]
      simp only [binned_map_index, resolved_genes_map_index, List.filter_cons]
      by_cases hb : binned s._gene_interval_tree slop gs k item = true
      · have hb2 := hb
        simp only [binned, decide_eq_true_eq] at hb2
        obtain ⟨hne, hk, hmem⟩ := hb2
        subst hk
        simp [hb, hne, hmem, bin_of_map_push_back]
      · by_cases hc : resolved_genes s._gene_interval_tree item.2 slop ≠ []
            ∧ bin_key (resolved_genes s._gene_interval_tree item.2 slop).length ∈ gs
        · have hk : ¬ bin_key (resolved_genes s._gene_interval_tree item.2 slop).length = k := by
            intro hk
            apply hb
            simp only [binned, decide_eq_true_eq]
            exact ⟨hc.1, hk, hk ▸ hc.2⟩
          simp [hb, hc, bin_of_map_push_back, hk]
        · simp [hb, hc]
    · intro a
      rw [h5 a, bin_genesets_item_eq]
      simp only [binned_map_index, List.mem_cons, exists_eq_or_imp]
      by_cases hc : resolved_genes s._gene_interval_tree item.2 slop ≠ []
            ∧ bin_key (resolved_genes s._gene_interval_tree item.2 slop).length ∈ gs
      · rw [if_pos hc, mem_map_keys_map_push_back]
        have : binned s._gene_interval_tree slop gs a item = true ↔
            a = bin_key (resolved_genes s._gene_interval_tree item.2 slop).length := by
          simp only [binned, decide_eq_true_eq]
          constructor
          · rintro ⟨_, hk, _⟩; exact hk.symm
          · intro hk; exact ⟨hc.1, hk.symm, hk ▸ hc.2⟩
        rw [this, or_assoc, or_left_comm]
      · have : ¬ binned s._gene_interval_tree slop gs a item = true := by
          simp only [binned, decide_eq_true_eq]
          rintro ⟨hne, hk, hmem⟩
          exact hc ⟨hne, hk ▸ hmem⟩
        rw [if_neg hc]
        simp [this]

theorem drop_snp_intervals_loop_eq_filter (null_snp_names : List String)
    (m : List (String × genomic_interval)) :
    drop_snp_intervals_loop null_snp_names m
      = m.filter (fun e => decide (e.1 ∈ null_snp_names)) := by
  induction m with
  | nil => rfl
  | cons e rest ih =>
    unfold drop_snp_intervals_loop
    by_cases h : e.1 ∈ null_snp_names
    · simp [set_count, h, ih]
    · simp [set_count, h, ih]

theorem bin_genesets_sizes (s : State) (slop : Int) :
    (bin_genesets s slop)._user_snp_geneset_sizes = s._user_snp_geneset_sizes.map bin_key := by
  unfold bin_genesets
  exact (foldl_bin_genesets_item slop _ s._snp_intervals _).1

theorem bin_genesets_user_genesets (s : State) (slop : Int) :
    (bin_genesets s slop)._user_genesets = s._user_genesets := by
  unfold bin_genesets
  exact (foldl_bin_genesets_item slop _ s._snp_intervals _).2.1

theorem bin_genesets_bin_of (s : State) (slop : Int) (k : Nat) :
    bin_of (bin_genesets s slop)._geneset_bins k
      = bin_of s._geneset_bins k
        ++ (s._snp_intervals.filter (binned s._gene_interval_tree slop
              (make_set (s._user_snp_geneset_sizes.map bin_key)) k)).map
            (fun it => resolved_genes s._gene_interval_tree it.2 slop) := by
  unfold bin_genesets
  exact (foldl_bin_genesets_item slop _ s._snp_intervals _).2.2.2.1 k

theorem bin_genesets_mem_keys (s : State) (slop : Int) (a : Nat) :
    a ∈ map_keys (bin_genesets s slop)._geneset_bins ↔
      a ∈ map_keys s._geneset_bins
        ∨ ∃ it ∈ s._snp_intervals, binned s._gene_interval_tree slop
            (make_set (s._user_snp_geneset_sizes.map bin_key)) a it = true := by
  unfold bin_genesets
  exact (foldl_bin_genesets_item slop _ s._snp_intervals _).2.2.2.2 a

/-! ## Lemmas on `report_user_snp_genes` -/

theorem mem_of_map_find {κ α : Type} [DecidableEq κ] (m : List (κ × α)) (k : κ) (v : α)
    (h : map_find m k = some v) : (k, v) ∈ m := by
  induction m with
  | nil => simp [map_find] at h
  | cons e rest ih =>
    unfold map_find at h
    split at h
    · next he =>
      cases h
      rw [← he]
      exact List.mem_cons_self _ _
    · exact List.mem_cons_of_mem _ (ih h)

theorem mem_map_insert {κ α : Type} [LT κ] [DecidableRel (fun a b : κ => a < b)]
    (m : List (κ × α)) (k : κ) (d : α) (e : κ × α) :
    e ∈ map_insert k d m ↔ e = (k, d) ∨ e ∈ m := by
  induction m with
  | nil => simp [map_insert]
  | cons x rest ih =>
    unfold map_insert
    split
    · simp
    · simp only [List.mem_cons, ih]; tauto

theorem mem_map_index {κ α : Type} [DecidableEq κ] [LT κ] [DecidableRel (fun a b : κ => a < b)]
    (m : List (κ × α)) (k : κ) (d : α) (e : κ × α) (h : e ∈ (map_index m k d).1) :
    e = (k, d) ∨ e ∈ m := by
  unfold map_index at h
  split at h
  · exact Or.inr h
  · exact (mem_map_insert m k d e).mp h

theorem tree_values_in_range_map_index (tm : List (String × IntervalTree)) (c : String) (n : Nat)
    (h : tree_values_in_range tm n) : tree_values_in_range (map_index tm c default).1 n := by
  intro e he iv hiv
  rcases mem_map_index tm c default e he with h1 | h1
  · subst h1
    simp [default] at hiv
  · exact h e h1 iv hiv

theorem mem_query (tm : List (String × IntervalTree)) (c : String) (a b : Int) (iv : Interval)
    (h : iv ∈ query tm c a b) : ∃ e ∈ tm, iv ∈ e.2.intervals := by
  unfold query at h
  split at h
  · next t ht =>
    simp only [IntervalTree.findOverlapping, List.nil_append, List.mem_filter] at h
    exact ⟨(c, t), mem_of_map_find tm c t ht, h.1⟩
  · simp at h

theorem mem_resolveOverlaps (tm : List (String × IntervalTree)) (c : String) (a b slop : Int)
    (iv : Interval) (h : iv ∈ resolveOverlaps tm c a b slop) : ∃ e ∈ tm, iv ∈ e.2.intervals := by
  unfold resolveOverlaps at h
  split at h
  · exact mem_query tm c _ _ iv h
  · exact mem_query tm c _ _ iv h

theorem genes_column_foldlM (row_names : List String) (l : List Interval)
    (h : ∀ gi ∈ l, gi.value < row_names.length) (init : String) :
    ∃ txt, l.foldlM
      (fun txt gi => (row_names[gi.value]?).map (fun nm => txt ++ "," ++ nm)) init = some txt := by
  induction l generalizing init with
  | nil => exact ⟨init, rfl⟩
  | cons gi rest ih =>
    have hgi : gi.value < row_names.length := h gi (List.mem_cons_self _ _)
    simp only [List.foldlM_cons, List.getElem?_eq_getElem hgi, Option.map_some',
      Option.bind_eq_bind, Option.some_bind]
    exact ih (fun g hg => h g (List.mem_cons_of_mem _ hg)) _

theorem genes_column_isSome (row_names : List String) (l : List Interval) (hne : l ≠ [])
    (h : ∀ gi ∈ l, gi.value < row_names.length) : ∃ txt, genes_column row_names l = some txt := by
  cases l with
  | nil => exact absurd rfl hne
  | cons first rest =>
    have hf : first.value < row_names.length := h first (List.mem_cons_self _ _)
    simp only [genes_column, List.getElem?_eq_getElem hf]
    exact genes_column_foldlM row_names (first :: rest) h _

theorem user_geneset_map_index (si : List (String × genomic_interval))
    (tm : List (String × IntervalTree)) (c : String) (slop : Int) :
    user_geneset si (map_index tm c default).1 slop = user_geneset si tm slop := by
  funext snp
  simp only [user_geneset, resolved_genes_map_index]

/-- One pass of the loop body of `report_user_snp_genes` returns when the gene indices of the
trees are row indices. -/
theorem report_user_snp_genes_row_total (slop : Int) (s : State) (out : List (List String))
    (snp : String) (hr : tree_values_in_range s._gene_interval_tree s._row_names.length) :
    ∃ s2 out2, report_user_snp_genes_row slop (s, out) snp = some (s2, out2)
      ∧ s2._snp_intervals = s._snp_intervals
      ∧ s2._row_names = s._row_names
      ∧ tree_values_in_range s2._gene_interval_tree s2._row_names.length
      ∧ user_geneset s2._snp_intervals s2._gene_interval_tree slop
          = user_geneset s._snp_intervals s._gene_interval_tree slop
      ∧ s2._user_genesets = s._user_genesets
          ++ (user_geneset s._snp_intervals s._gene_interval_tree slop snp).toList
      ∧ s2._user_snp_geneset_sizes = s._user_snp_geneset_sizes
          ++ (user_geneset s._snp_intervals s._gene_interval_tree slop snp).toList.map
              List.length := by
  unfold report_user_snp_genes_row
  cases hf : map_find s._snp_intervals snp with
  | none =>
    refine ⟨s, _, rfl, rfl, rfl, hr, rfl, ?_, ?_⟩ <;> simp [user_geneset, hf]
  | some iv =>
    simp only [report_user_snp_genes_overlaps_fst, report_user_snp_genes_overlaps_snd]
    by_cases h0 : resolveOverlaps s._gene_interval_tree iv.chrom iv.start iv.end_ slop = []
    · simp only [h0, List.length_nil, gt_iff_lt, lt_self_iff_false, if_false]
      refine ⟨_, _, rfl, rfl, rfl, tree_values_in_range_map_index _ _ _ hr,
        user_geneset_map_index _ _ _ _, ?_, ?_⟩ <;>
        simp [user_geneset, hf, resolved_genes, h0]
    · have hpos : (resolveOverlaps s._gene_interval_tree iv.chrom iv.start iv.end_ slop).length
          > 0 := List.length_pos.mpr h0
      have hin : ∀ gi ∈ resolveOverlaps s._gene_interval_tree iv.chrom iv.start iv.end_ slop,
          gi.value < s._row_names.length := by
        intro gi hgi
        obtain ⟨e, he, hiv⟩ := mem_resolveOverlaps _ _ _ _ _ gi hgi
        exact hr e he gi hiv
      obtain ⟨txt, htxt⟩ := genes_column_isSome s._row_names _ h0 hin
      simp only [hpos, if_true, htxt]
      refine ⟨_, _, rfl, rfl, rfl, tree_values_in_range_map_index _ _ _ hr,
        user_geneset_map_index _ _ _ _, ?_, ?_⟩ <;>
        simp [user_geneset, hf, resolved_genes, h0]

/-- The whole loop of `report_user_snp_genes` returns when the gene indices of the trees are row
indices. -/
theorem report_user_snp_genes_loop_total (slop : Int) (names : List String) (s : State)
    (out : List (List String))
    (hr : tree_values_in_range s._gene_interval_tree s._row_names.length) :
    ∃ s2 out2, names.foldlM (report_user_snp_genes_row slop) (s, out) = some (s2, out2)
      ∧ s2._user_genesets = s._user_genesets
          ++ names.filterMap (user_geneset s._snp_intervals s._gene_interval_tree slop)
      ∧ s2._user_snp_geneset_sizes = s._user_snp_geneset_sizes
          ++ (names.filterMap (user_geneset s._snp_intervals s._gene_interval_tree slop)).map
              List.length := by
  induction names generalizing s out with
  | nil => exact ⟨s, out, rfl, by simp, by simp⟩
  | cons snp rest ih =>
    obtain ⟨s1, out1, h1, hsi, hrn, hr1, hug, hg, hs⟩ :=
      report_user_snp_genes_row_total slop s out snp hr
    obtain ⟨s2, out2, h2, hg2, hs2⟩ := ih s1 out1 hr1
    refine ⟨s2, out2, ?_, ?_, ?_⟩
    · simp only [List.foldlM_cons, h1, Option.bind_eq_bind, Option.some_bind, h2]
    · rw [hg2, hug, hg]
      cases hu : user_geneset s._snp_intervals s._gene_interval_tree slop snp <;>
        simp [List.filterMap_cons, hu]
    · rw [hs2, hug, hs]
      cases hu : user_geneset s._snp_intervals s._gene_interval_tree slop snp <;>
        simp [List.filterMap_cons, hu]

/-- What one pass of the loop body of `report_user_snp_genes` leaves behind when nothing is
thrown. -/
theorem report_user_snp_genes_row_result (slop : Int) (s : State) (out : List (List String))
    (snp : String) (r : State × List (List String))
    (h : report_user_snp_genes_row slop (s, out) snp = some r) :
    r.1._snp_intervals = s._snp_intervals
      ∧ user_geneset r.1._snp_intervals r.1._gene_interval_tree slop
          = user_geneset s._snp_intervals s._gene_interval_tree slop
      ∧ r.1._user_genesets = s._user_genesets
          ++ (user_geneset s._snp_intervals s._gene_interval_tree slop snp).toList
      ∧ r.1._user_snp_geneset_sizes = s._user_snp_geneset_sizes
          ++ (user_geneset s._snp_intervals s._gene_interval_tree slop snp).toList.map
              List.length := by
  unfold report_user_snp_genes_row at h
  cases hf : map_find s._snp_intervals snp with
  | none =>
    simp only [hf, Option.some.injEq] at h
    subst h
    refine ⟨rfl, rfl, ?_, ?_⟩ <;> simp [user_geneset, hf]
  | some iv =>
    simp only [hf, report_user_snp_genes_overlaps_fst, report_user_snp_genes_overlaps_snd] at h
    by_cases h0 : resolveOverlaps s._gene_interval_tree iv.chrom iv.start iv.end_ slop = []
    · simp only [h0, List.length_nil, gt_iff_lt, lt_self_iff_false, if_false,
        Option.some.injEq] at h
      subst h
      refine ⟨rfl, user_geneset_map_index _ _ _ _, ?_, ?_⟩ <;>
        simp [user_geneset, hf, resolved_genes, h0]
    · have hpos : (resolveOverlaps s._gene_interval_tree iv.chrom iv.start iv.end_ slop).length
          > 0 := List.length_pos.mpr h0
      simp only [hpos, if_true] at h
      split at h
      · exact absurd h (by simp)
      · simp only [Option.some.injEq] at h
        subst h
        refine ⟨rfl, user_geneset_map_index _ _ _ _, ?_, ?_⟩ <;>
          simp [user_geneset, hf, resolved_genes, h0]

/-- What the loop of `report_user_snp_genes` leaves behind when nothing is thrown. -/
theorem report_user_snp_genes_loop_result (slop : Int) (names : List String) (s : State)
    (out : List (List String)) (r : State × List (List String))
    (h : names.foldlM (report_user_snp_genes_row slop) (s, out) = some r) :
    r.1._user_genesets = s._user_genesets
        ++ names.filterMap (user_geneset s._snp_intervals s._gene_interval_tree slop)
      ∧ r.1._user_snp_geneset_sizes = s._user_snp_geneset_sizes
          ++ (names.filterMap (user_geneset s._snp_intervals s._gene_interval_tree slop)).map
              List.length := by
  induction names generalizing s out with
  | nil =>
    simp only [List.foldlM_nil, pure, Option.some.injEq] at h
    subst h
    simp
  | cons snp rest ih =>
    simp only [List.foldlM_cons, Option.bind_eq_bind] at h
    cases h1 : report_user_snp_genes_row slop (s, out) snp with
    | none => simp [h1] at h
    | some r1 =>
      rw [h1, Option.some_bind] at h
      obtain ⟨_, hug, hg, hs⟩ := report_user_snp_genes_row_result slop s out snp r1 h1
      obtain ⟨hg2, hs2⟩ := ih r1.1 r1.2 h
      constructor
      · rw [hg2, hug, hg]
        cases hu : user_geneset s._snp_intervals s._gene_interval_tree slop snp <;>
          simp [List.filterMap_cons, hu]
      · rw [hs2, hug, hs]
        cases hu : user_geneset s._snp_intervals s._gene_interval_tree slop snp <;>
          simp [List.filterMap_cons, hu]

/-! ## Lemmas on scores -/

theorem LogScore.add_def (a b : LogScore) : a + b = LogScore.add a b := rfl

theorem LogScore.zero_def : (0 : LogScore) = LogScore.zero := rfl

theorem LogScore.add_assoc (a b c : LogScore) : a + b + c = a + (b + c) := by
  cases a <;> cases b <;> cases c <;> simp [LogScore.add_def, LogScore.add, mul_assoc]

theorem LogScore.zero_add (a : LogScore) : LogScore.zero + a = a := by
  cases a <;> simp [LogScore.add_def, LogScore.add, LogScore.zero]

theorem LogScore.add_zero (a : LogScore) : a + LogScore.zero = a := by
  cases a <;> simp [LogScore.add_def, LogScore.add, LogScore.zero]

theorem LogScore.isfinite_add (a b : LogScore) :
    (a + b).isfinite = (a.isfinite && b.isfinite) := by
  cases a <;> cases b <;> simp [LogScore.add_def, LogScore.add, LogScore.isfinite]

/-- The representation is sound for addition: the sum of two finite scores stands for the sum of
the real numbers they stand for. -/
theorem LogScore.denotes_add (a b : LogScore) (x y : ℝ) (ha : a.Denotes x) (hb : b.Denotes y) :
    (a + b).Denotes (x + y) := by
  cases a with
  | inf => exact ha.elim
  | nan => exact ha.elim
  | fin p =>
    cases b with
    | inf => exact hb.elim
    | nan => exact hb.elim
    | fin q =>
      obtain ⟨hp, rfl⟩ := ha
      obtain ⟨hq, rfl⟩ := hb
      have hp2 : (p : ℝ) ≠ 0 := by exact_mod_cast hp.ne'
      have hq2 : (q : ℝ) ≠ 0 := by exact_mod_cast hq.ne'
      refine ⟨mul_pos hp hq, ?_⟩
      rw [Rat.cast_mul, Real.logb_mul hp2 hq2]
      ring

/-- The representation is sound for comparison. -/
theorem LogScore.denotes_le (a b : LogScore) (x y : ℝ) (ha : a.Denotes x) (hb : b.Denotes y) :
    LogScore.le a b = true ↔ x ≤ y := by
  cases a with
  | inf => exact ha.elim
  | nan => exact ha.elim
  | fin p =>
    cases b with
    | inf => exact hb.elim
    | nan => exact hb.elim
    | fin q =>
      obtain ⟨hp, rfl⟩ := ha
      obtain ⟨hq, rfl⟩ := hb
      have hp2 : (0 : ℝ) < p := by exact_mod_cast hp
      have hq2 : (0 : ℝ) < q := by exact_mod_cast hq
      simp only [LogScore.le, decide_eq_true_eq, neg_le_neg_iff]
      rw [Real.logb_le_logb (by norm_num) hq2 hp2]
      exact_mod_cast Iff.rfl

/-- The literal `0.0` stands for the real number 0. -/
theorem LogScore.denotes_zero : LogScore.zero.Denotes 0 := by
  simp [LogScore.Denotes, LogScore.zero]

/-- The term `-log10(x)` of a positive `x` stands for the real number `-log10(x)`. -/
theorem LogScore.denotes_neg_log10 (x : ℚ) (hx : 0 < x) :
    (LogScore.neg_log10 x).Denotes (-Real.logb 10 (x : ℝ)) := by
  simp [LogScore.neg_log10, hx, LogScore.Denotes]

theorem foldl_add_eq (f : List Nat → LogScore) (l : List (List Nat)) (init : LogScore) :
    l.foldl (fun score geneset => score + f geneset) init = init + (l.map f).sum := by
  induction l generalizing init with
  | nil => simp [LogScore.zero_def, LogScore.add_zero]
  | cons g rest ih =>
    simp only [List.foldl_cons, List.map_cons, List.sum_cons, ih, LogScore.add_assoc]

theorem score_binary_loop_eq_sum (s : State) (col : Nat) (snpset : List (List Nat)) :
    score_binary_loop s col snpset
      = (snpset.map (fun geneset => LogScore.neg_log10
          (gsl_ran_binomial_pdf (count_hits s._expression col geneset)
            (s._binary_probs.getD col 0)
            (to_unsigned (int_cast (s._binary_sums.getD col 0)))))).sum := by
  unfold score_binary_loop
  simp only
  rw [foldl_add_eq, LogScore.zero_add]

theorem logscore_sum_append (l1 l2 : List LogScore) : (l1 ++ l2).sum = l1.sum + l2.sum := by
  induction l1 with
  | nil => simp [LogScore.zero_def, LogScore.zero_add]
  | cons a rest ih => simp only [List.cons_append, List.sum_cons, ih, LogScore.add_assoc]

theorem score_binary_loop_append (s : State) (col : Nat) (A B : List (List Nat)) :
    score_binary_loop s col (A ++ B) = score_binary_loop s col A + score_binary_loop s col B := by
  simp only [score_binary_loop_eq_sum, List.map_append, logscore_sum_append]

theorem count_hits_eq_countP (m : MatrixXd) (col : Nat) (geneset : List Nat) :
    count_hits m col geneset = geneset.countP (fun gene => decide (m.coeff gene col > 0)) := by
  unfold count_hits
  suffices h : ∀ init, geneset.foldl (fun k gene_id => if m.coeff gene_id col > 0 then k + 1 else k) init
      = init + geneset.countP (fun gene => decide (m.coeff gene col > 0)) by
    simpa using h 0
  induction geneset with
  | nil => simp
  | cons g rest ih =>
    intro init
    simp only [List.foldl_cons, ih, List.countP_cons]
    by_cases h : m.coeff g col > 0
    · simp [h]; omega
    · simp [h]

theorem sum_eq_count_of_binary (f : Nat → ℚ) (l : List Nat)
    (h : ∀ r ∈ l, f r = 0 ∨ f r = 1) :
    (l.map f).sum = ((l.filter (fun r => decide (f r > 0))).length : ℚ) := by
  induction l with
  | nil => simp
  | cons r rest ih =>
    have ih2 := ih (fun x hx => h x (List.mem_cons_of_mem _ hx))
    rcases h r (List.mem_cons_self _ _) with h0 | h1
    · simp [List.filter_cons, h0, ih2]
    · simp [List.filter_cons, h1, ih2]
      ring

theorem int_cast_natCast (n : Nat) : int_cast (n : ℚ) = (n : Int) := by
  simp [int_cast]

theorem to_unsigned_natCast (n : Nat) (h : n < 4294967296) : to_unsigned (n : Int) = n := by
  unfold to_unsigned
  have : ((n : Int) % 4294967296) = (n : Int) := Int.emod_eq_of_lt (by omega) (by omega)
  rw [this]
  simp

theorem binary_stats_sums (s : State) (col : Nat) (hcol : col < s._expression.cols)
    (hbin : ∀ r, r < s._expression.rows →
      s._expression.coeff r col = 0 ∨ s._expression.coeff r col = 1) :
    (binary_stats s)._binary_sums.getD col 0 = (success_count s._expression col : ℚ) := by
  simp only [binary_stats, colwise_sum, List.getD_eq_getElem?_getD, List.getElem?_map,
    List.getElem?_range hcol, Option.map_some', Option.getD_some, success_count]
  exact sum_eq_count_of_binary (fun r => s._expression.coeff r col) _
    (fun r hr => hbin r (List.mem_range.mp hr))

theorem binary_stats_probs (s : State) (col : Nat) (hcol : col < s._expression.cols)
    (hbin : ∀ r, r < s._expression.rows →
      s._expression.coeff r col = 0 ∨ s._expression.coeff r col = 1) :
    (binary_stats s)._binary_probs.getD col 0
      = (success_count s._expression col : ℚ) / (s._expression.rows : ℚ) := by
  have h := binary_stats_sums s col hcol hbin
  simp only [binary_stats, colwise_sum, List.getD_eq_getElem?_getD, List.getElem?_map,
    List.getElem?_range hcol, Option.map_some', Option.getD_some] at h ⊢
  rw [h]

theorem success_count_le_rows (m : MatrixXd) (col : Nat) : success_count m col ≤ m.rows := by
  unfold success_count
  calc ((List.range m.rows).filter _).length ≤ (List.range m.rows).length :=
        List.length_filter_le _ _
    _ = m.rows := List.length_range _

/-- C1: after `bin_genesets`, started with empty bins, every key of `_geneset_bins` is one of the
user's geneset sizes clamped to 10. -/
theorem bin_genesets_keys_subset_user_sizes (s : State) (slop : Int)
    (h : s._geneset_bins = []) :
    ∀ k ∈ map_keys (bin_genesets s slop)._geneset_bins,
      k ∈ s._user_snp_geneset_sizes.map (fun size => min size 10) := by
  intro k hk
  rw [bin_genesets_mem_keys, h] at hk
  rcases hk with hk | ⟨it, _, hb⟩
  · simp [map_keys] at hk
  · simp only [binned, decide_eq_true_eq, mem_make_set] at hb
    have : (fun size : Nat => min size 10) = bin_key := by
      funext n; exact (bin_key_eq_min n).symm
    rw [this]
    exact hb.2.2

theorem bin_genesets_keys_subset_user_sizes_witness :
    catalog_state._geneset_bins = []
    ∧ (resolved_genes catalog_state._gene_interval_tree ⟨"chr1", 190, 195⟩ 0).length = 3
    ∧ (∀ k ∈ map_keys (bin_genesets catalog_state 0)._geneset_bins,
        k ∈ catalog_state._user_snp_geneset_sizes.map (fun size => min size 10))
    ∧ map_keys (bin_genesets catalog_state 0)._geneset_bins = [2, 5] :=
  ⟨rfl, by decide, bin_genesets_keys_subset_user_sizes catalog_state 0 rfl, by decide⟩

/-- C2 (as stated, refuted): on `desert_state` the catalog build completes, the user size 2 is in
the template, the bin of size 2 is empty, and `generate_snpset` then fails on the remainder by the
size of that empty bin. -/
theorem catalog_build_leaves_empty_bin :
    (catalog_build desert_state 0).map
        (fun s2 => (s2._user_snp_geneset_sizes, bin_of s2._geneset_bins 2,
          (generate_snpset s2 ⟨fun n => n, 0⟩).isSome))
      = some ([2], [], false) := by
  decide

/-- C2 (amended): `bin_genesets` has no error path, and for a size `k` of the user template the
bin `k` left by `drop_snp_intervals` then `bin_genesets` (started with empty bins) is non-empty
exactly when some entry of `_snp_intervals` named in the null set resolves to a non-empty geneset
whose size clamped to 10 is `k`. -/
theorem catalog_build_bin_nonempty_iff (s : State) (slop : Int) (k : Nat)
    (h : s._geneset_bins = [])
    (hk : k ∈ (bin_genesets (drop_snp_intervals s) slop)._user_snp_geneset_sizes) :
    bin_of (bin_genesets (drop_snp_intervals s) slop)._geneset_bins k ≠ [] ↔
      ∃ e ∈ s._snp_intervals, e.1 ∈ s._null_snp_names
        ∧ resolved_genes s._gene_interval_tree e.2 slop ≠ []
        ∧ min (resolved_genes s._gene_interval_tree e.2 slop).length 10 = k := by
  have hdrop : (drop_snp_intervals s)._snp_intervals
      = s._snp_intervals.filter (fun e => decide (e.1 ∈ s._null_snp_names)) := by
    simp only [drop_snp_intervals, drop_snp_intervals_loop_eq_filter]
  have hb : (drop_snp_intervals s)._geneset_bins = [] := h
  have ht : (drop_snp_intervals s)._gene_interval_tree = s._gene_interval_tree := rfl
  have hsz : (drop_snp_intervals s)._user_snp_geneset_sizes = s._user_snp_geneset_sizes := rfl
  rw [bin_genesets_sizes, hsz] at hk
  rw [bin_genesets_bin_of, hdrop, hb, ht, hsz]
  simp only [bin_of, map_find, Option.getD_none, List.nil_append, ne_eq, List.map_eq_nil_iff,
    List.filter_eq_nil_iff, List.mem_filter, decide_eq_true_eq, not_forall, binned, mem_make_set,
    bin_key_eq_min]
  constructor
  · rintro ⟨e, ⟨he, hnull⟩, hc⟩
    have hc2 := of_not_not hc
    exact ⟨e, he, hnull, hc2.1, hc2.2.1⟩
  · rintro ⟨e, he, hnull, hne, hmin⟩
    refine ⟨e, ⟨he, hnull⟩, not_not_intro ⟨hne, hmin, ?_⟩⟩
    simpa only [bin_key_eq_min] using hk

theorem catalog_build_bin_nonempty_iff_witness :
    catalog_state._geneset_bins = []
    ∧ 2 ∈ (bin_genesets (drop_snp_intervals catalog_state) 0)._user_snp_geneset_sizes
    ∧ (bin_of (bin_genesets (drop_snp_intervals catalog_state) 0)._geneset_bins 2 ≠ [] ↔
        ∃ e ∈ catalog_state._snp_intervals, e.1 ∈ catalog_state._null_snp_names
          ∧ resolved_genes catalog_state._gene_interval_tree e.2 0 ≠ []
          ∧ min (resolved_genes catalog_state._gene_interval_tree e.2 0).length 10 = 2)
    ∧ bin_of (bin_genesets (drop_snp_intervals catalog_state) 0)._geneset_bins 2 = [[0, 1]] :=
  ⟨rfl, by decide, catalog_build_bin_nonempty_iff catalog_state 0 2 rfl (by decide), by decide⟩

/-- C3: `drop_snp_intervals` keeps exactly the entries of `_snp_intervals` whose name is in
`_null_snp_names`, unchanged and in order, and removes every other entry; hence every geneset
that the following `bin_genesets` (started with empty bins) puts in a bin is the resolved geneset
of an entry whose name is in the null set, and an entry whose name is not in the null set is not
among the entries that `bin_genesets` visits. -/
theorem drop_snp_intervals_keeps_null_only (s : State) (slop : Int)
    (h : s._geneset_bins = []) :
    (drop_snp_intervals s)._snp_intervals
        = s._snp_intervals.filter (fun e => decide (e.1 ∈ s._null_snp_names))
    ∧ (∀ k, ∀ g ∈ bin_of (bin_genesets (drop_snp_intervals s) slop)._geneset_bins k,
        ∃ e ∈ s._snp_intervals, e.1 ∈ s._null_snp_names
          ∧ g = resolved_genes s._gene_interval_tree e.2 slop)
    ∧ (∀ e ∈ s._snp_intervals, e.1 ∉ s._null_snp_names →
        e ∉ (drop_snp_intervals s)._snp_intervals) := by
  have hdrop : (drop_snp_intervals s)._snp_intervals
      = s._snp_intervals.filter (fun e => decide (e.1 ∈ s._null_snp_names)) := by
    simp only [drop_snp_intervals, drop_snp_intervals_loop_eq_filter]
  refine ⟨hdrop, ?_, ?_⟩
  · intro k g hg
    rw [bin_genesets_bin_of, hdrop] at hg
    have hb : (drop_snp_intervals s)._geneset_bins = [] := h
    have ht : (drop_snp_intervals s)._gene_interval_tree = s._gene_interval_tree := rfl
    rw [hb, ht] at hg
    simp only [bin_of, map_find, Option.getD_none, List.nil_append, List.mem_map,
      List.mem_filter, decide_eq_true_eq] at hg
    obtain ⟨e, ⟨⟨he, hnull⟩, _⟩, rfl⟩ := hg
    exact ⟨e, he, hnull, rfl⟩
  · intro e _ hnot hmem
    rw [hdrop] at hmem
    simp only [List.mem_filter, decide_eq_true_eq] at hmem
    exact hnot hmem.2

theorem drop_snp_intervals_keeps_null_only_witness :
    desert_state._geneset_bins = []
    ∧ ((drop_snp_intervals desert_state)._snp_intervals
        = desert_state._snp_intervals.filter (fun e => decide (e.1 ∈ desert_state._null_snp_names))
      ∧ (∀ k, ∀ g ∈ bin_of (bin_genesets (drop_snp_intervals desert_state) 0)._geneset_bins k,
          ∃ e ∈ desert_state._snp_intervals, e.1 ∈ desert_state._null_snp_names
            ∧ g = resolved_genes desert_state._gene_interval_tree e.2 0)
      ∧ (∀ e ∈ desert_state._snp_intervals, e.1 ∉ desert_state._null_snp_names →
          e ∉ (drop_snp_intervals desert_state)._snp_intervals))
    ∧ (drop_snp_intervals desert_state)._snp_intervals
        = [("rsM", ⟨"chr1", 120, 121⟩), ("rsN", ⟨"chr1", 5000, 5010⟩)] :=
  ⟨rfl, drop_snp_intervals_keeps_null_only desert_state 0 rfl, by decide⟩

/-! ## Lemmas on `generate_snpset` -/

theorem map_index_of_bin_ne_nil {α : Type} (bins : List (Nat × List α)) (k : Nat)
    (h : bin_of bins k ≠ []) : map_index bins k [] = (bins, bin_of bins k) := by
  unfold bin_of at h ⊢
  unfold map_index
  cases hf : map_find bins k with
  | none => simp [hf] at h
  | some v => simp

/-- The genesets that the loop of `generate_snpset` appends for the sizes still to visit, when
the draws start at position `pos`. -/
theorem generate_snpset_loop_spec (sizes : List Nat) (bins : List (Nat × List (List Nat)))
    (g : Rand) (snpset : List (List Nat)) (h : ∀ k ∈ sizes, bin_of bins k ≠ []) :
    ∃ picks, generate_snpset_loop sizes bins g snpset
        = some (snpset ++ picks, bins, { g with pos := g.pos + sizes.length })
      ∧ picks.length = sizes.length
      ∧ ∀ i (hi : i < sizes.length), ∃ geneset, picks[i]? = some geneset
          ∧ (bin_of bins sizes[i])[g.draws (g.pos + i) % (bin_of bins sizes[i]).length]?
              = some geneset
          ∧ geneset ∈ bin_of bins sizes[i] := by
  induction sizes generalizing g snpset with
  | nil => exact ⟨[], by simp [generate_snpset_loop], rfl, fun i hi => absurd hi (by simp)⟩
  | cons k rest ih =>
    have hk : bin_of bins k ≠ [] := h k (List.mem_cons_self _ _)
    have hlen : 0 < (bin_of bins k).length := List.length_pos.mpr hk
    have hr : g.draws g.pos % (bin_of bins k).length < (bin_of bins k).length :=
      Nat.mod_lt _ hlen
    obtain ⟨picks, hp, hpl, hpi⟩ := ih (std_rand g).2
      (snpset ++ [(bin_of bins k)[g.draws g.pos % (bin_of bins k).length]])
      (fun k2 hk2 => h k2 (List.mem_cons_of_mem _ hk2))
    refine ⟨(bin_of bins k)[g.draws g.pos % (bin_of bins k).length] :: picks, ?_, ?_, ?_⟩
    · unfold generate_snpset_loop
      simp only [map_index_of_bin_ne_nil bins k hk, Nat.ne_of_gt hlen, if_false]
      have hd : (std_rand g).1 = g.draws g.pos := rfl
      rw [hd, List.getElem?_eq_getElem hr]
      simp only [hp]
      simp only [std_rand, List.append_assoc, List.singleton_append, List.length_cons]
      have : g.pos + 1 + rest.length = g.pos + (rest.length + 1) := by omega
      rw [this]
    · simp [hpl]
    · intro i hi
      cases i with
      | zero =>
        refine ⟨(bin_of bins k)[g.draws g.pos % (bin_of bins k).length], by simp, ?_, ?_⟩
        · simp only [List.getElem_cons_zero, Nat.add_zero]
          exact List.getElem?_eq_getElem hr
        · simp only [List.getElem_cons_zero]
          exact List.getElem_mem _
      | succ j =>
        have hj : j < rest.length := by simpa using hi
        obtain ⟨geneset, h1, h2, h3⟩ := hpi j hj
        refine ⟨geneset, by simpa using h1, ?_, ?_⟩
        · simp only [List.getElem_cons_succ]
          have : (std_rand g).2.pos + j = g.pos + (j + 1) := by
            simp only [std_rand]; omega
          rw [← this]
          exact h2
        · simpa only [List.getElem_cons_succ] using h3

/-- C4: when the bin of every size of the template is non-empty, `generate_snpset` returns a
collection with as many entries as `_user_snp_geneset_sizes`; its `i`-th entry is the element of
the bin of `sizes[i]` at index `draw_i mod` the size of that bin, where `draw_i` is the `i`-th
value drawn; the bins are left as they were and one value is drawn per entry. -/
theorem generate_snpset_matches_template (s : State) (g : Rand)
    (h : ∀ k ∈ s._user_snp_geneset_sizes, bin_of s._geneset_bins k ≠ []) :
    ∃ snpset, generate_snpset s g
        = some (snpset, s, { g with pos := g.pos + s._user_snp_geneset_sizes.length })
      ∧ snpset.length = s._user_snp_geneset_sizes.length
      ∧ ∀ i (hi : i < s._user_snp_geneset_sizes.length), ∃ geneset, snpset[i]? = some geneset
          ∧ (bin_of s._geneset_bins s._user_snp_geneset_sizes[i])[g.draws (g.pos + i)
                % (bin_of s._geneset_bins s._user_snp_geneset_sizes[i]).length]?
              = some geneset
          ∧ geneset ∈ bin_of s._geneset_bins s._user_snp_geneset_sizes[i] := by
  obtain ⟨picks, hp, hpl, hpi⟩ :=
    generate_snpset_loop_spec s._user_snp_geneset_sizes s._geneset_bins g [] h
  refine ⟨picks, ?_, hpl, hpi⟩
  unfold generate_snpset
  rw [hp]
  simp

theorem generate_snpset_matches_template_witness :
    (∀ k ∈ sampling_state._user_snp_geneset_sizes, bin_of sampling_state._geneset_bins k ≠ [])
    ∧ (∃ snpset, generate_snpset sampling_state ⟨fun _ => 4, 0⟩
        = some (snpset, sampling_state,
            { (⟨fun _ => 4, 0⟩ : Rand) with
              pos := 0 + sampling_state._user_snp_geneset_sizes.length })
      ∧ snpset.length = sampling_state._user_snp_geneset_sizes.length
      ∧ ∀ i (hi : i < sampling_state._user_snp_geneset_sizes.length), ∃ geneset,
          snpset[i]? = some geneset
          ∧ (bin_of sampling_state._geneset_bins sampling_state._user_snp_geneset_sizes[i])[
                (fun _ => 4) (0 + i)
                % (bin_of sampling_state._geneset_bins
                    sampling_state._user_snp_geneset_sizes[i]).length]?
              = some geneset
          ∧ geneset ∈ bin_of sampling_state._geneset_bins
              sampling_state._user_snp_geneset_sizes[i])
    ∧ (generate_snpset sampling_state ⟨fun _ => 4, 0⟩).map (fun r => r.1) = some [[0], [0]]
    ∧ (generate_snpset sampling_state ⟨fun n => n + 1, 0⟩).map (fun r => r.1)
        = some [[1], [0]] :=
  ⟨by decide, generate_snpset_matches_template sampling_state ⟨fun _ => 4, 0⟩ (by decide),
    by decide, by decide⟩

/-- C5: the gene list resolved for a variant interval is `query(chrom, start, end)` when that is
not empty and `query(chrom, max(1, start - slop), end + slop)` otherwise, and both
`report_user_snp_genes` and `bin_genesets` compute it.  With one gene `[100, 200)` on `chr1`:
`[150, 160)` resolves to the gene without slop, `[300, 310)` resolves to the gene with slop 150,
through the range `[150, 460)`, and to nothing with slop 50. -/
theorem overlaps_eq_resolveOverlaps :
    (∀ (index : List (String × IntervalTree)) (name : String) (iv : genomic_interval) (slop : Int),
      (report_user_snp_genes_overlaps index iv slop).2
          = resolveOverlaps index iv.chrom iv.start iv.end_ slop
      ∧ (bin_genesets_overlaps index (name, iv) slop).2
          = resolveOverlaps index iv.chrom iv.start iv.end_ slop
      ∧ resolveOverlaps index iv.chrom iv.start iv.end_ slop
          = (if query index iv.chrom iv.start iv.end_ ≠ [] then
              query index iv.chrom iv.start iv.end_
            else query index iv.chrom (max 1 (iv.start - slop)) (iv.end_ + slop)))
    ∧ resolveOverlaps one_gene_index "chr1" 150 160 0 = [⟨100, 200, 0⟩]
    ∧ query one_gene_index "chr1" 300 310 = []
    ∧ (max 1 (300 - 150) : Int) = 150 ∧ (310 + 150 : Int) = 460
    ∧ resolveOverlaps one_gene_index "chr1" 300 310 150 = [⟨100, 200, 0⟩]
    ∧ resolveOverlaps one_gene_index "chr1" 300 310 50 = [] := by
  refine ⟨fun index name iv slop => ⟨report_user_snp_genes_overlaps_snd index iv slop,
    bin_genesets_overlaps_snd index (name, iv) slop, ?_⟩, by decide, by decide, by decide,
    by decide, by decide, by decide⟩
  unfold resolveOverlaps
  by_cases h : query index iv.chrom iv.start iv.end_ = [] <;> simp [h]

/-! ## Lemmas on the permutation loop -/

theorem null_trials_bounds (i : Nat) (user_score : LogScore) (n : Nat) (s : State) (g : Rand)
    (observed : Nat) (r : State × Rand × Nat)
    (h : null_trials i user_score n s g observed = some r) :
    observed ≤ r.2.2 ∧ r.2.2 ≤ observed + n := by
  induction n generalizing s g observed with
  | zero =>
    simp only [null_trials, Option.some.injEq] at h
    subst h
    simp
  | succ j ih =>
    unfold null_trials at h
    split at h
    · exact absurd h (by simp)
    · next r1 _ =>
      split at h
      · have := ih _ _ _ h
        omega
      · have := ih _ _ _ h
        omega

/-- C6: for a column whose observed score `score_binary(col, _user_genesets)` is `<= 0`, the row
written is exactly pvalue 1.0, nulls_observed 0, nulls_tested 0, and nothing else happens: the
state is the one before (no access to the bins by `generate_snpset`) and the generator is where
it was (no draw). -/
theorem test_column_skips_nonpositive_score (s : State) (g : Rand) (i : Nat) (name : String)
    (hname : s._col_names[i]? = some name)
    (hscore : LogScore.le (score_binary s i s._user_genesets) LogScore.zero = true) :
    test_column s g i = some (⟨name, 1, 0, 0⟩, s, g) := by
  unfold test_column
  simp only [hscore, if_true, hname]

theorem test_column_skips_nonpositive_score_witness :
    vacuous_state._col_names[0]? = some "c0"
    ∧ LogScore.le (score_binary vacuous_state 0 vacuous_state._user_genesets) LogScore.zero = true
    ∧ (generate_snpset vacuous_state ⟨fun n => n, 7⟩).isSome = false
    ∧ test_column vacuous_state ⟨fun n => n, 7⟩ 0
        = some (⟨"c0", 1, 0, 0⟩, vacuous_state, ⟨fun n => n, 7⟩) :=
  ⟨by decide, by decide!, by decide,
    test_column_skips_nonpositive_score vacuous_state ⟨fun n => n, 7⟩ 0 "c0" (by decide)
      (by decide!)⟩

/-- C7: every row that the permutation loop writes has `0 <= pvalue <= 1`,
`0 <= nulls_observed <= nulls_tested` and `nulls_tested` equal to 0 or to 1000; when
`nulls_tested` is 1000 the pvalue is `nulls_observed / 1000`. -/
theorem test_column_row_bounds (s : State) (g : Rand) (i : Nat)
    (r : pvalue_row × State × Rand) (h : test_column s g i = some r) :
    0 ≤ r.1.pvalue ∧ r.1.pvalue ≤ 1
    ∧ 0 ≤ r.1.nulls_observed ∧ r.1.nulls_observed ≤ r.1.nulls_tested
    ∧ (r.1.nulls_tested = 0 ∨ r.1.nulls_tested = 1000)
    ∧ (r.1.nulls_tested = 1000 → r.1.pvalue = (r.1.nulls_observed : ℚ) / 1000) := by
  unfold test_column at h
  simp only at h
  split at h
  · split at h
    · exact absurd h (by simp)
    · simp only [Option.some.injEq] at h
      subst h
      simp
  · split at h
    · exact absurd h (by simp)
    · next r1 hr1 =>
      split at h
      · exact absurd h (by simp)
      · simp only [Option.some.injEq] at h
        subst h
        have hb := (null_trials_bounds _ _ _ _ _ _ _ hr1).2
        simp only [Nat.zero_add, LOOPS] at hb
        have hq : (r1.2.2 : ℚ) ≤ 1000 := by exact_mod_cast hb
        refine ⟨?_, ?_, Nat.zero_le _, ?_, Or.inr ?_, fun _ => ?_⟩
        · simp only [Nat.zero_add, LOOPS]
          positivity
        · simp only [Nat.zero_add, LOOPS]
          rw [div_le_one (by norm_num)]
          exact_mod_cast hb
        · simpa only [Nat.zero_add, LOOPS] using hb
        · simp only [Nat.zero_add, LOOPS]
        · simp only [Nat.zero_add, LOOPS]
          norm_num

theorem test_column_row_bounds_witness :
    ∃ r, test_column tested_state ⟨fun n => n, 0⟩ 0 = some r
      ∧ r.1 = ⟨"c0", 1 / 2, 500, 1000⟩
      ∧ (0 ≤ r.1.pvalue ∧ r.1.pvalue ≤ 1
        ∧ 0 ≤ r.1.nulls_observed ∧ r.1.nulls_observed ≤ r.1.nulls_tested
        ∧ (r.1.nulls_tested = 0 ∨ r.1.nulls_tested = 1000)
        ∧ (r.1.nulls_tested = 1000 → r.1.pvalue = (r.1.nulls_observed : ℚ) / 1000)) := by
  have hm : (test_column tested_state ⟨fun n => n, 0⟩ 0).map (fun r => r.1)
      = some ⟨"c0", 1 / 2, 500, 1000⟩ := by decide!
  cases h : test_column tested_state ⟨fun n => n, 0⟩ 0 with
  | none =>
    rw [h] at hm
    exact absurd hm (by simp)
  | some r =>
    rw [h] at hm
    exact ⟨r, rfl, by simpa using hm, test_column_row_bounds _ _ _ r h⟩

/-- C8: after `report_user_snp_genes`, started with empty vectors, `_user_genesets` and
`_user_snp_geneset_sizes` have the same length: one entry, in the iteration order of the name set
(ascending), for every user SNP name that has a reference interval and a non-empty resolved
geneset, with `sizes[i]` the number of genes of `genesets[i]`; after `bin_genesets` the sizes are
`min(|genesets[i]|, 10)` and `_user_genesets` is unchanged.  The function does return when the
gene indices stored in the trees are row indices. -/
theorem report_user_snp_genes_parallel_vectors (s : State) (slop : Int)
    (hg : s._user_genesets = []) (hs : s._user_snp_geneset_sizes = [])
    (hsorted : s._user_snp_names.Sorted (· < ·)) :
    (tree_values_in_range s._gene_interval_tree s._row_names.length →
      ∃ s1 out, report_user_snp_genes s slop = some (s1, out))
    ∧ ∀ s1 out, report_user_snp_genes s slop = some (s1, out) →
      s1._user_genesets.length = s1._user_snp_geneset_sizes.length
      ∧ s1._user_genesets = s._user_snp_names.filterMap
          (user_geneset s._snp_intervals s._gene_interval_tree slop)
      ∧ (s._user_snp_names.filter (fun snp =>
          (user_geneset s._snp_intervals s._gene_interval_tree slop snp).isSome)).Sorted (· < ·)
      ∧ s1._user_snp_geneset_sizes = s1._user_genesets.map List.length
      ∧ (bin_genesets s1 slop)._user_snp_geneset_sizes
          = s1._user_genesets.map (fun g => min g.length 10)
      ∧ (bin_genesets s1 slop)._user_genesets = s1._user_genesets := by
  constructor
  · intro hr
    obtain ⟨s1, out, h1, _, _⟩ :=
      report_user_snp_genes_loop_total slop s._user_snp_names s
        [["chrom", "start", "end", "name", "n_genes", "genes"]] hr
    exact ⟨s1, out, h1⟩
  · intro s1 out h1
    obtain ⟨hg1, hs1⟩ := report_user_snp_genes_loop_result slop s._user_snp_names s
        [["chrom", "start", "end", "name", "n_genes", "genes"]] (s1, out) h1
    simp only at hg1 hs1
    rw [hg, List.nil_append] at hg1
    rw [hs, List.nil_append, ← hg1] at hs1
    refine ⟨?_, hg1, ?_, hs1, ?_, bin_genesets_user_genesets s1 slop⟩
    · rw [hs1, List.length_map]
    · exact List.Pairwise.sublist (List.filter_sublist _) hsorted
    · rw [bin_genesets_sizes, hs1, List.map_map]
      apply List.map_congr_left
      intro g _
      simp only [Function.comp, bin_key_eq_min]

theorem report_user_snp_genes_parallel_vectors_witness :
    crowded_state._user_genesets = [] ∧ crowded_state._user_snp_geneset_sizes = []
    ∧ crowded_state._user_snp_names.Sorted (· < ·)
    ∧ tree_values_in_range crowded_state._gene_interval_tree crowded_state._row_names.length
    ∧ (∃ s1 out, report_user_snp_genes crowded_state 0 = some (s1, out)
      ∧ s1._user_genesets = [[0, 1, 2, 3, 4, 5, 6, 7, 8, 9, 10]]
      ∧ s1._user_snp_geneset_sizes = [11]
      ∧ (bin_genesets s1 0)._user_snp_geneset_sizes = [10]
      ∧ (bin_genesets s1 0)._user_genesets = [[0, 1, 2, 3, 4, 5, 6, 7, 8, 9, 10]]) := by
  have hr : tree_values_in_range crowded_state._gene_interval_tree
      crowded_state._row_names.length := by
    unfold tree_values_in_range; decide
  have hmain := report_user_snp_genes_parallel_vectors crowded_state 0 rfl rfl (by decide!)
  obtain ⟨s1, out, h1⟩ := hmain.1 hr
  obtain ⟨_, hg1, _, hs1, hb1, hb2⟩ := hmain.2 s1 out h1
  have hv : crowded_state._user_snp_names.filterMap
      (user_geneset crowded_state._snp_intervals crowded_state._gene_interval_tree 0)
      = [[0, 1, 2, 3, 4, 5, 6, 7, 8, 9, 10]] := by decide
  rw [hv] at hg1
  rw [hg1] at hs1 hb1 hb2
  exact ⟨rfl, rfl, by decide!, hr, s1, out, h1, hg1, hs1, hb1, hb2⟩

/-- C9: for a binary expression matrix, with the column statistics of lines 73-74, and a column
`col`, `score_binary(col, S)` is the sum over the genesets `g` of `S` of
`-log10(binomialPMF(k_g; n, p))`, with `k_g` the number of members of `g` whose value in the
column is positive, `n` the success count of the column and `p = n / numGenes`, when that sum is
finite, and `0.0` when it is not (exact arithmetic, a matrix with at least one row and fewer
than `2^31`).  With `n = 10` and `p = 0.1` the term of a
geneset with `k = 3` is larger than the term of a geneset with `k = 0`. -/
theorem score_binary_eq_sum_of_terms :
    (∀ (s : State) (col : Nat) (S : List (List Nat)),
      (∀ r c, r < s._expression.rows → c < s._expression.cols →
        s._expression.coeff r c = 0 ∨ s._expression.coeff r c = 1) →
      col < s._expression.cols → 0 < s._expression.rows → s._expression.rows < 2147483648 →
      ((score_sum_spec s._expression col S).isfinite = true →
        score_binary (binary_stats s) col S = score_sum_spec s._expression col S)
      ∧ ((score_sum_spec s._expression col S).isfinite = false →
        score_binary (binary_stats s) col S = LogScore.zero))
    ∧ LogScore.lt (LogScore.neg_log10 (gsl_ran_binomial_pdf 0 (1 / 10) 10))
        (LogScore.neg_log10 (gsl_ran_binomial_pdf 3 (1 / 10) 10)) = true := by
  refine ⟨?_, by decide!⟩
  intro s col S hbin hcol _ hrows
  have hb : ∀ r, r < s._expression.rows →
      s._expression.coeff r col = 0 ∨ s._expression.coeff r col = 1 :=
    fun r hr => hbin r col hr hcol
  have hloop : score_binary_loop (binary_stats s) col S = score_sum_spec s._expression col S := by
    rw [score_binary_loop_eq_sum, binary_stats_sums s col hcol hb,
      binary_stats_probs s col hcol hb, int_cast_natCast,
      to_unsigned_natCast _ (by have := success_count_le_rows s._expression col; omega)]
    unfold score_sum_spec
    congr 1
    apply List.map_congr_left
    intro g _
    have he : (binary_stats s)._expression = s._expression := rfl
    rw [he, count_hits_eq_countP]
    rfl
  unfold score_binary
  simp only [hloop]
  constructor
  · intro hf
    simp [hf]
  · intro hf
    simp [hf]

theorem score_binary_eq_sum_of_terms_witness :
    (∀ r c, r < tested_state._expression.rows → c < tested_state._expression.cols →
        tested_state._expression.coeff r c = 0 ∨ tested_state._expression.coeff r c = 1)
    ∧ 0 < tested_state._expression.cols ∧ 0 < tested_state._expression.rows
    ∧ tested_state._expression.rows < 2147483648
    ∧ (((score_sum_spec tested_state._expression 0 [[0], [1, 2]]).isfinite = true →
        score_binary (binary_stats tested_state) 0 [[0], [1, 2]]
          = score_sum_spec tested_state._expression 0 [[0], [1, 2]])
      ∧ ((score_sum_spec tested_state._expression 0 [[0], [1, 2]]).isfinite = false →
        score_binary (binary_stats tested_state) 0 [[0], [1, 2]] = LogScore.zero))
    ∧ score_binary (binary_stats tested_state) 0 [[0], [1, 2]] = LogScore.fin (2 / 9) :=
  have hbin : ∀ r c, r < tested_state._expression.rows → c < tested_state._expression.cols →
      tested_state._expression.coeff r c = 0 ∨ tested_state._expression.coeff r c = 1 :=
    fun r _ _ _ => by by_cases h : r = 0 <;> simp [tested_state, binary_stats, h]
  ⟨hbin, by decide, by decide, by decide,
    score_binary_eq_sum_of_terms.1 tested_state 0 [[0], [1, 2]] hbin (by decide) (by decide)
      (by decide),
    by decide!⟩

/-- C10 (as stated, refuted): in `tested_state`, one active gene out of three, the geneset
`[0, 0]`, which a SNP under two intervals of gene 0 resolves to, counts two successes, more than
the column has, so its term is infinite and `score_binary` returns `0.0` for `[[0, 0]]` and for
`[[0, 0], [0]]`, while `[[0]]` alone scores `-log10(1/3)`: the score of the concatenation is not
the sum of the scores. -/
theorem score_binary_not_additive :
    score_binary tested_state 0 ([[0, 0]] ++ [[0]])
      ≠ score_binary tested_state 0 [[0, 0]] + score_binary tested_state 0 [[0]]
    ∧ score_binary tested_state 0 ([[0, 0]] ++ [[0]]) = LogScore.zero
    ∧ score_binary tested_state 0 [[0, 0]] = LogScore.zero
    ∧ score_binary tested_state 0 [[0]] = LogScore.fin (1 / 3)
    ∧ resolved_genes two_transcript_index ⟨"chr1", 160, 170⟩ 0 = [0, 0] := by
  decide!

/-- C10 (amended): in exact arithmetic, when the sums accumulated for `A` and for `B` are both
finite, `score_binary(col, A ++ B) = score_binary(col, A) + score_binary(col, B)`; when one of
them is not finite, `score_binary(col, A ++ B)` is `0.0`. -/
theorem score_binary_append (s : State) (col : Nat) (A B : List (List Nat)) :
    ((score_binary_loop s col A).isfinite = true → (score_binary_loop s col B).isfinite = true →
      score_binary s col (A ++ B) = score_binary s col A + score_binary s col B)
    ∧ (((score_binary_loop s col A).isfinite = false
          ∨ (score_binary_loop s col B).isfinite = false) →
      score_binary s col (A ++ B) = LogScore.zero) := by
  unfold score_binary
  simp only [score_binary_loop_append, LogScore.isfinite_add]
  constructor
  · intro hA hB
    simp [hA, hB]
  · rintro (h | h) <;> simp [h]

theorem score_binary_append_witness :
    (score_binary_loop tested_state 0 [[0]]).isfinite = true
    ∧ (score_binary_loop tested_state 0 [[1, 2]]).isfinite = true
    ∧ score_binary tested_state 0 ([[0]] ++ [[1, 2]])
        = score_binary tested_state 0 [[0]] + score_binary tested_state 0 [[1, 2]]
    ∧ (score_binary_loop tested_state 0 [[0, 0]]).isfinite = false
    ∧ score_binary tested_state 0 ([[0, 0]] ++ [[0]]) = LogScore.zero :=
  ⟨by decide!, by decide!,
    (score_binary_append tested_state 0 [[0]] [[1, 2]]).1 (by decide!) (by decide!),
    by decide!,
    (score_binary_append tested_state 0 [[0, 0]] [[0]]).2 (Or.inl (by decide!))⟩

/-! ## Lemmas on what the engine leaves unchanged -/

theorem only_empty_trees_added_refl (tm : List (String × IntervalTree)) :
    only_empty_trees_added tm tm :=
  ⟨fun _ _ h => h, fun _ _ h => Or.inl h⟩

theorem only_empty_trees_added_trans (a b c : List (String × IntervalTree))
    (hab : only_empty_trees_added a b) (hbc : only_empty_trees_added b c) :
    only_empty_trees_added a c := by
  refine ⟨fun k t h => hbc.1 k t (hab.1 k t h), fun k t h => ?_⟩
  rcases hbc.2 k t h with h1 | ⟨h1, h2⟩
  · exact hab.2 k t h1
  · cases ha : map_find a k with
    | none => exact Or.inr ⟨rfl, h2⟩
    | some t2 =>
      have := hab.1 k t2 ha
      rw [h1] at this
      exact absurd this (by simp)

theorem only_empty_trees_added_map_index (tm : List (String × IntervalTree)) (c : String) :
    only_empty_trees_added tm (map_index tm c default).1 := by
  constructor
  · intro k t h
    rw [map_find_map_index, map_index_snd]
    by_cases hk : c = k
    · subst hk; simp [h]
    · simp [hk, h]
  · intro k t h
    rw [map_find_map_index, map_index_snd] at h
    by_cases hk : c = k
    · subst hk
      simp only [if_true, Option.some.injEq] at h
      cases hf : map_find tm c with
      | none => simp [hf] at h; exact Or.inr ⟨rfl, h.symm⟩
      | some t2 => simp [hf] at h; exact Or.inl (by rw [h])
    · simp only [hk, if_false] at h
      exact Or.inl h

theorem query_of_only_empty_trees_added (a b : List (String × IntervalTree))
    (h : only_empty_trees_added a b) (c : String) (x y : Int) :
    query b c x y = query a c x y := by
  unfold query
  cases hb : map_find b c with
  | none =>
    cases ha : map_find a c with
    | none => rfl
    | some t => rw [h.1 c t ha] at hb; exact absurd hb (by simp)
  | some t =>
    rcases h.2 c t hb with h1 | ⟨h1, h2⟩
    · simp [h1]
    · subst h2
      simp [h1, IntervalTree.findOverlapping, default]

/-- The fields that one pass of the loop body of `report_user_snp_genes` does not write, and what
it does to the tree map. -/
theorem report_user_snp_genes_row_frame (slop : Int) (s : State) (out : List (List String))
    (snp : String) (r : State × List (List String))
    (h : report_user_snp_genes_row slop (s, out) snp = some r) :
    r.1._snp_intervals = s._snp_intervals
      ∧ r.1._null_snp_names = s._null_snp_names
      ∧ r.1._geneset_bins = s._geneset_bins
      ∧ r.1._row_names = s._row_names
      ∧ only_empty_trees_added s._gene_interval_tree r.1._gene_interval_tree := by
  unfold report_user_snp_genes_row at h
  cases hf : map_find s._snp_intervals snp with
  | none =>
    simp only [hf, Option.some.injEq] at h
    subst h
    exact ⟨rfl, rfl, rfl, rfl, only_empty_trees_added_refl _⟩
  | some iv =>
    simp only [hf, report_user_snp_genes_overlaps_fst, report_user_snp_genes_overlaps_snd] at h
    split at h
    · split at h
      · exact absurd h (by simp)
      · simp only [Option.some.injEq] at h
        subst h
        exact ⟨rfl, rfl, rfl, rfl, only_empty_trees_added_map_index _ _⟩
    · simp only [Option.some.injEq] at h
      subst h
      exact ⟨rfl, rfl, rfl, rfl, only_empty_trees_added_map_index _ _⟩

/-- The fields that the loop of `report_user_snp_genes` does not write, and what it does to the
tree map. -/
theorem report_user_snp_genes_loop_frame (slop : Int) (names : List String) (s : State)
    (out : List (List String)) (r : State × List (List String))
    (h : names.foldlM (report_user_snp_genes_row slop) (s, out) = some r) :
    r.1._snp_intervals = s._snp_intervals
      ∧ r.1._null_snp_names = s._null_snp_names
      ∧ r.1._geneset_bins = s._geneset_bins
      ∧ r.1._row_names = s._row_names
      ∧ only_empty_trees_added s._gene_interval_tree r.1._gene_interval_tree := by
  induction names generalizing s out with
  | nil =>
    simp only [List.foldlM_nil, pure, Option.some.injEq] at h
    subst h
    exact ⟨rfl, rfl, rfl, rfl, only_empty_trees_added_refl _⟩
  | cons snp rest ih =>
    simp only [List.foldlM_cons, Option.bind_eq_bind] at h
    cases h1 : report_user_snp_genes_row slop (s, out) snp with
    | none => simp [h1] at h
    | some r1 =>
      rw [h1, Option.some_bind] at h
      obtain ⟨a1, a2, a3, a4, a5⟩ := report_user_snp_genes_row_frame slop s out snp r1 h1
      obtain ⟨b1, b2, b3, b4, b5⟩ := ih r1.1 r1.2 h
      exact ⟨b1.trans a1, b2.trans a2, b3.trans a3, b4.trans a4,
        only_empty_trees_added_trans _ _ _ a5 b5⟩

theorem foldl_bin_genesets_item_tree (slop : Int) (gs : List Nat)
    (items : List (String × genomic_interval)) (s : State) :
    only_empty_trees_added s._gene_interval_tree
      (items.foldl (bin_genesets_item slop gs) s)._gene_interval_tree := by
  induction items generalizing s with
  | nil => exact only_empty_trees_added_refl _
  | cons item rest ih =>
    simp only [List.foldl_cons]
    refine only_empty_trees_added_trans _ _ _ ?_ (ih _)
    rw [bin_genesets_item_eq]
    exact only_empty_trees_added_map_index _ _

theorem bin_genesets_tree (s : State) (slop : Int) :
    only_empty_trees_added s._gene_interval_tree (bin_genesets s slop)._gene_interval_tree := by
  unfold bin_genesets
  exact foldl_bin_genesets_item_tree slop _ s._snp_intervals
    { s with _user_snp_geneset_sizes :=
        (s._user_snp_geneset_sizes.map (fun size => if size > MAX_GENES then MAX_GENES else size)) }

/-- When the loop of `generate_snpset` returns, the bins are the bins it started with. -/
theorem generate_snpset_loop_bins (sizes : List Nat) (bins : List (Nat × List (List Nat)))
    (g : Rand) (snpset : List (List Nat))
    (r : List (List Nat) × List (Nat × List (List Nat)) × Rand)
    (h : generate_snpset_loop sizes bins g snpset = some r) : r.2.1 = bins := by
  induction sizes generalizing g snpset with
  | nil =>
    simp only [generate_snpset_loop, Option.some.injEq] at h
    subst h
    rfl
  | cons k rest ih =>
    unfold generate_snpset_loop at h
    simp only at h
    split at h
    · exact absurd h (by simp)
    · next hlen =>
      have hb : (map_index bins k []).1 = bins := by
        unfold map_index at hlen ⊢
        cases hf : map_find bins k with
        | none => simp [hf] at hlen
        | some v => rfl
      split at h
      · exact absurd h (by simp)
      · rw [hb] at h
        exact ih _ _ h

theorem generate_snpset_state (s : State) (g : Rand) (r : List (List Nat) × State × Rand)
    (h : generate_snpset s g = some r) : r.2.1 = s := by
  unfold generate_snpset at h
  split at h
  · exact absurd h (by simp)
  · next r1 h1 =>
    simp only [Option.some.injEq] at h
    subst h
    have := generate_snpset_loop_bins _ _ _ _ r1 h1
    simp only [this]

/-- C11 (as stated, refuted): on `offmap_state` the only SNP lies on `chr2`, which has no gene
interval; the tree map has the single key `chr1` before, and the keys `chr1` and `chr2` after
`report_user_snp_genes` and after `bin_genesets`. -/
theorem tree_map_gains_key :
    map_keys offmap_state._gene_interval_tree = ["chr1"]
    ∧ (report_user_snp_genes offmap_state 0).map (fun r => map_keys r.1._gene_interval_tree)
        = some ["chr1", "chr2"]
    ∧ map_keys (bin_genesets offmap_state 0)._gene_interval_tree = ["chr1", "chr2"] := by
  decide!

/-- C11 (amended): `report_user_snp_genes` and `bin_genesets` keep the tree of every chromosome
that has one and add nothing but empty trees, for chromosomes of visited variants that had none,
so every query gives the same result before and after; and `generate_snpset`, whenever it
returns, leaves `_geneset_bins` (the whole state) as it was. -/
theorem index_and_bins_frame (s : State) (slop : Int) :
    (∀ s1 out, report_user_snp_genes s slop = some (s1, out) →
      only_empty_trees_added s._gene_interval_tree s1._gene_interval_tree
      ∧ ∀ c a b, query s1._gene_interval_tree c a b = query s._gene_interval_tree c a b)
    ∧ only_empty_trees_added s._gene_interval_tree (bin_genesets s slop)._gene_interval_tree
    ∧ (∀ c a b, query (bin_genesets s slop)._gene_interval_tree c a b
        = query s._gene_interval_tree c a b)
    ∧ (∀ g snpset s2 g2, generate_snpset s g = some (snpset, s2, g2) →
        s2._geneset_bins = s._geneset_bins ∧ s2 = s) := by
  refine ⟨?_, bin_genesets_tree s slop,
    query_of_only_empty_trees_added _ _ (bin_genesets_tree s slop), ?_⟩
  · intro s1 out h
    have hf := (report_user_snp_genes_loop_frame slop _ s _ (s1, out) h).2.2.2.2
    exact ⟨hf, query_of_only_empty_trees_added _ _ hf⟩
  · intro g snpset s2 g2 h
    have := generate_snpset_state s g _ h
    simp only at this
    exact ⟨by rw [this], this⟩

theorem index_and_bins_frame_witness :
    (∃ s1 out, report_user_snp_genes offmap_state 0 = some (s1, out)
      ∧ only_empty_trees_added offmap_state._gene_interval_tree s1._gene_interval_tree
      ∧ map_find s1._gene_interval_tree "chr2" = some default)
    ∧ (∃ snpset s2 g2, generate_snpset sampling_state ⟨fun _ => 4, 0⟩ = some (snpset, s2, g2)
      ∧ s2._geneset_bins = sampling_state._geneset_bins) := by
  constructor
  · have hm : (report_user_snp_genes offmap_state 0).map
        (fun r => map_find r.1._gene_interval_tree "chr2") = some (some default) := by decide!
    cases h : report_user_snp_genes offmap_state 0 with
    | none => rw [h] at hm; exact absurd hm (by simp)
    | some r =>
      rw [h] at hm
      exact ⟨r.1, r.2, rfl, ((index_and_bins_frame offmap_state 0).1 r.1 r.2 h).1,
        by simpa using hm⟩
  · cases h : generate_snpset sampling_state ⟨fun _ => 4, 0⟩ with
    | none =>
      have : (generate_snpset sampling_state ⟨fun _ => 4, 0⟩).isSome = true := by decide
      rw [h] at this
      exact absurd this (by simp)
    | some r =>
      exact ⟨r.1, r.2.1, r.2.2, rfl,
        ((index_and_bins_frame sampling_state 0).2.2.2 ⟨fun _ => 4, 0⟩ r.1 r.2.1 r.2.2 h).1⟩

/-- C12 (the code at the failing input): for `desert_state` the row of `rsU`, which has a
reference interval and resolves to the two genes `g0` and `g1`, has `n_genes` 2 and the genes
column `g0,g0,g1`, three names with the first gene twice; `rsX`, without a reference interval,
gets the row `NA, NA, NA, rsX, NA, NA`. -/
theorem report_repeats_first_gene :
    (report_user_snp_genes desert_state 0).map (fun r => r.2)
      = some [["chrom", "start", "end", "name", "n_genes", "genes"],
          ["chr1", "160", "170", "rsU", "2", "g0,g0,g1"],
          ["NA", "NA", "NA", "rsX", "NA", "NA"]]
    ∧ (resolveOverlaps desert_state._gene_interval_tree "chr1" 160 170 0).map
        (fun iv => desert_state._row_names[iv.value]?) = [some "g0", some "g1"] := by
  decide

/-! ## Lemmas on the trials and on the rows of `pvalues.txt` -/

theorem generate_snpset_total (s : State) (g : Rand)
    (h : ∀ k ∈ s._user_snp_geneset_sizes, bin_of s._geneset_bins k ≠ []) :
    ∃ snpset, generate_snpset s g
      = some (snpset, s, { g with pos := g.pos + s._user_snp_geneset_sizes.length }) := by
  obtain ⟨picks, hp, _, _⟩ :=
    generate_snpset_loop_spec s._user_snp_geneset_sizes s._geneset_bins g [] h
  refine ⟨picks, ?_⟩
  unfold generate_snpset
  rw [hp]
  simp

theorem count_foldl (p : Nat → Bool) (l : List Nat) (init : Nat) :
    l.foldl (fun n j => if p j then n + 1 else n) init = init + (l.filter p).length := by
  induction l generalizing init with
  | nil => simp
  | cons j rest ih =>
    simp only [List.foldl_cons, ih, List.filter_cons]
    by_cases hj : p j = true
    · simp [hj]; omega
    · simp [hj]

theorem filter_range_succ (p : Nat → Bool) (n : Nat) :
    ((List.range (n + 1)).filter p).length
      = (if p 0 then 1 else 0) + ((List.range n).filter (fun j => p (j + 1))).length := by
  rw [List.range_succ_eq_map, List.filter_cons, List.filter_map]
  by_cases h0 : p 0 = true
  · simp [h0, Function.comp_def]; omega
  · simp [h0, Function.comp_def]

theorem trial_snpset_zero (s : State) (g : Rand) (snpset : List (List Nat)) (r : State × Rand)
    (h : generate_snpset s g = some (snpset, r)) : trial_snpset s g 0 = snpset := by
  unfold trial_snpset
  have : ({ g with pos := g.pos + 0 * s._user_snp_geneset_sizes.length } : Rand) = g := by
    cases g; simp
  rw [this, h]

theorem trial_snpset_succ (s : State) (g : Rand) (j : Nat) :
    trial_snpset s { g with pos := g.pos + s._user_snp_geneset_sizes.length } j
      = trial_snpset s g (j + 1) := by
  unfold trial_snpset
  have : g.pos + s._user_snp_geneset_sizes.length + j * s._user_snp_geneset_sizes.length
      = g.pos + (j + 1) * s._user_snp_geneset_sizes.length := by ring
  simp only [this]

/-- The sequential loop over the trials counts the trials whose surrogate set scores at least
the observed score, the surrogate set of trial `j` being drawn after those of the trials before
it. -/
theorem null_trials_count (s : State) (i : Nat) (user_score : LogScore) (n : Nat) (g : Rand)
    (observed : Nat)
    (h : ∀ k ∈ s._user_snp_geneset_sizes, bin_of s._geneset_bins k ≠ []) :
    null_trials i user_score n s g observed
      = some (s, { g with pos := g.pos + n * s._user_snp_geneset_sizes.length },
          observed + ((List.range n).filter (fun j =>
            LogScore.le user_score (score_binary s i (trial_snpset s g j)))).length) := by
  induction n generalizing g observed with
  | zero =>
    cases g
    simp [null_trials]
  | succ n ih =>
    obtain ⟨snpset, hs⟩ := generate_snpset_total s g h
    have h0 := trial_snpset_zero s g snpset _ hs
    unfold null_trials
    simp only [hs, ih, trial_snpset_succ]
    rw [filter_range_succ, h0]
    have hpos : g.pos + s._user_snp_geneset_sizes.length + n * s._user_snp_geneset_sizes.length
        = g.pos + (n + 1) * s._user_snp_geneset_sizes.length := by ring
    by_cases hit : LogScore.le user_score (score_binary s i snpset) = true
    · simp only [hit, if_true, hpos, Nat.add_assoc]
    · simp [hit, hpos]

theorem null_trials_state (i : Nat) (user_score : LogScore) (n : Nat) (s : State) (g : Rand)
    (observed : Nat) (r : State × Rand × Nat)
    (h : null_trials i user_score n s g observed = some r) : r.1 = s := by
  induction n generalizing g observed with
  | zero =>
    simp only [null_trials, Option.some.injEq] at h
    subst h
    rfl
  | succ j ih =>
    unfold null_trials at h
    split at h
    · exact absurd h (by simp)
    · next r1 hr1 =>
      have hs := generate_snpset_state s g r1 hr1
      rw [hs] at h
      split at h
      · exact ih _ _ h
      · exact ih _ _ h

theorem test_column_result (s : State) (g : Rand) (i : Nat) (r : pvalue_row × State × Rand)
    (h : test_column s g i = some r) : r.2.1 = s ∧ s._col_names[i]? = some r.1.name := by
  unfold test_column at h
  simp only at h
  split at h
  · split at h
    · exact absurd h (by simp)
    · next name hname =>
      simp only [Option.some.injEq] at h
      subst h
      exact ⟨rfl, hname⟩
  · split at h
    · exact absurd h (by simp)
    · next r1 hr1 =>
      have hs := null_trials_state _ _ _ _ _ _ r1 hr1
      split at h
      · exact absurd h (by simp)
      · next name hname =>
        simp only [Option.some.injEq] at h
        subst h
        rw [hs] at hname
        exact ⟨hs, hname⟩

theorem test_column_total (s : State) (g : Rand) (i : Nat)
    (h : ∀ k ∈ s._user_snp_geneset_sizes, bin_of s._geneset_bins k ≠ [])
    (hi : i < s._col_names.length) : ∃ row g2, test_column s g i = some (row, s, g2) := by
  unfold test_column
  simp only [List.getElem?_eq_getElem hi, null_trials_count s i _ LOOPS g 0 h]
  split
  · exact ⟨_, _, rfl⟩
  · exact ⟨_, _, rfl⟩

theorem test_columns_result (todo i : Nat) (s : State) (g : Rand) (stream : List pvalue_row)
    (r : List pvalue_row × State × Rand) (h : test_columns todo i s g stream = some r) :
    r.1.length = stream.length + todo
      ∧ (∀ j, j < stream.length → r.1[j]? = stream[j]?)
      ∧ ∀ j, j < todo → (r.1[stream.length + j]?).map pvalue_row.name = s._col_names[i + j]? := by
  induction todo generalizing i g stream with
  | zero =>
    simp only [test_columns, Option.some.injEq] at h
    subst h
    exact ⟨rfl, fun _ _ => rfl, fun j hj => absurd hj (by omega)⟩
  | succ todo ih =>
    unfold test_columns at h
    split at h
    · exact absurd h (by simp)
    · next r1 hr1 =>
      obtain ⟨hs, hname⟩ := test_column_result s g i r1 hr1
      rw [hs] at h
      obtain ⟨h1, h2, h3⟩ := ih _ _ _ h
      simp only [List.length_append, List.length_singleton] at h1 h2 h3
      refine ⟨by omega, fun j hj => ?_, fun j hj => ?_⟩
      · rw [h2 j (by omega), List.getElem?_append_left hj]
      · cases j with
        | zero =>
          rw [Nat.add_zero, Nat.add_zero, h2 stream.length (by omega), hname]
          simp
        | succ j2 =>
          have := h3 j2 (by omega)
          have e1 : stream.length + 1 + j2 = stream.length + (j2 + 1) := by omega
          have e2 : i + 1 + j2 = i + (j2 + 1) := by omega
          rw [e1, e2] at this
          exact this

theorem test_columns_total (todo i : Nat) (s : State) (g : Rand) (stream : List pvalue_row)
    (h : ∀ k ∈ s._user_snp_geneset_sizes, bin_of s._geneset_bins k ≠ [])
    (hi : i + todo ≤ s._col_names.length) :
    ∃ rows g2, test_columns todo i s g stream = some (rows, s, g2) := by
  induction todo generalizing i g stream with
  | zero => exact ⟨stream, g, rfl⟩
  | succ todo ih =>
    obtain ⟨row, g2, h1⟩ := test_column_total s g i h (by omega)
    obtain ⟨rows, g3, h2⟩ := ih (i + 1) g2 (stream ++ [row]) (by omega)
    exact ⟨rows, g3, by unfold test_columns; simp only [h1, h2]⟩

/-- C13: the rows of `pvalues.txt` are one per column of the expression matrix, in column order:
whenever the loop over the columns returns, it has written as many rows as there are columns and
the `i`-th row carries the name `_col_names[i]`, skipped or tested; and the loop does return when
every column has a name and the bin of every size of the template is non-empty. -/
theorem pvalues_one_row_per_column (s : State) (g : Rand) :
    ((∀ k ∈ s._user_snp_geneset_sizes, bin_of s._geneset_bins k ≠ []) →
      s._expression.cols ≤ s._col_names.length →
      ∃ rows g2, pvalues s g = some (rows, s, g2))
    ∧ ∀ rows s2 g2, pvalues s g = some (rows, s2, g2) →
      rows.length = s._expression.cols
      ∧ ∀ i, i < s._expression.cols →
          (rows[i]?).map pvalue_row.name = s._col_names[i]? := by
  constructor
  · intro hbins hnames
    exact test_columns_total _ 0 s g [] hbins (by omega)
  · intro rows s2 g2 h
    obtain ⟨h1, _, h3⟩ := test_columns_result _ 0 s g [] (rows, s2, g2) h
    simp only [List.length_nil, Nat.zero_add] at h1 h3
    exact ⟨h1, h3⟩

theorem pvalues_one_row_per_column_witness :
    (∀ k ∈ two_column_state._user_snp_geneset_sizes,
      bin_of two_column_state._geneset_bins k ≠ [])
    ∧ two_column_state._expression.cols ≤ two_column_state._col_names.length
    ∧ ∃ rows s2 g2, pvalues two_column_state ⟨fun n => n, 0⟩ = some (rows, s2, g2)
      ∧ rows = [⟨"c0", 1 / 2, 500, 1000⟩, ⟨"c1", 1, 0, 0⟩]
      ∧ rows.length = two_column_state._expression.cols
      ∧ ∀ i, i < two_column_state._expression.cols →
          (rows[i]?).map pvalue_row.name = two_column_state._col_names[i]? := by
  have hm : (pvalues two_column_state ⟨fun n => n, 0⟩).map (fun r => r.1)
      = some [⟨"c0", 1 / 2, 500, 1000⟩, ⟨"c1", 1, 0, 0⟩] := by decide!
  cases h : pvalues two_column_state ⟨fun n => n, 0⟩ with
  | none => rw [h] at hm; exact absurd hm (by simp)
  | some r =>
    rw [h] at hm
    have hmain := (pvalues_one_row_per_column two_column_state ⟨fun n => n, 0⟩).2
      r.1 r.2.1 r.2.2 h
    exact ⟨by decide, by decide, r.1, r.2.1, r.2.2, rfl, by simpa using hm, hmain.1, hmain.2⟩

/-- C14: after `bin_genesets`, started with empty bins, the bin of every key `k` of the clamped
user sizes is exactly the sequence, in the order of `_snp_intervals` (ascending names), of the
full resolved gene-index lists of the entries whose resolved geneset is not empty and has
`min(cardinality, 10) = k`; every entry of a bin `k` has cardinality `k` when `k < 10` and at
least 10 when `k = 10`; no bin in the map is empty; and no empty geneset is in any bin. -/
theorem bin_genesets_bins_exact (s : State) (slop : Int) (h : s._geneset_bins = [])
    (hsorted : (s._snp_intervals.map Prod.fst).Sorted (· < ·)) :
    (∀ k ∈ (bin_genesets s slop)._user_snp_geneset_sizes,
      bin_of (bin_genesets s slop)._geneset_bins k
        = (s._snp_intervals.filter (fun e =>
            decide (resolved_genes s._gene_interval_tree e.2 slop ≠ []
              ∧ min (resolved_genes s._gene_interval_tree e.2 slop).length 10 = k))).map
          (fun e => resolved_genes s._gene_interval_tree e.2 slop))
    ∧ (∀ k, ((s._snp_intervals.filter (fun e =>
            decide (resolved_genes s._gene_interval_tree e.2 slop ≠ []
              ∧ min (resolved_genes s._gene_interval_tree e.2 slop).length 10 = k))).map
          Prod.fst).Sorted (· < ·))
    ∧ (∀ k, ∀ g ∈ bin_of (bin_genesets s slop)._geneset_bins k,
        g ≠ [] ∧ (k < 10 → g.length = k) ∧ (k = 10 → 10 ≤ g.length))
    ∧ (∀ k ∈ map_keys (bin_genesets s slop)._geneset_bins,
        bin_of (bin_genesets s slop)._geneset_bins k ≠ []) := by
  have hbin : ∀ k, bin_of (bin_genesets s slop)._geneset_bins k
      = (s._snp_intervals.filter (binned s._gene_interval_tree slop
            (make_set (s._user_snp_geneset_sizes.map bin_key)) k)).map
          (fun it => resolved_genes s._gene_interval_tree it.2 slop) := by
    intro k
    rw [bin_genesets_bin_of, h]
    simp [bin_of, map_find]
  refine ⟨?_, ?_, ?_, ?_⟩
  · intro k hk
    rw [bin_genesets_sizes] at hk
    rw [hbin k]
    congr 1
    apply List.filter_congr
    intro e _
    simp only [binned, bin_key_eq_min, mem_make_set, decide_eq_decide]
    constructor
    · rintro ⟨h1, h2, _⟩; exact ⟨h1, h2⟩
    · rintro ⟨h1, h2⟩
      exact ⟨h1, h2, by simpa only [bin_key_eq_min] using hk⟩
  · intro k
    exact List.Pairwise.sublist ((List.filter_sublist _).map Prod.fst) hsorted
  · intro k g hg
    rw [hbin k] at hg
    simp only [List.mem_map, List.mem_filter, binned, decide_eq_true_eq, bin_key_eq_min] at hg
    obtain ⟨e, ⟨_, hne, hk, _⟩, rfl⟩ := hg
    refine ⟨hne, fun hlt => ?_, fun h10 => ?_⟩ <;> omega
  · intro k hk
    rw [bin_genesets_mem_keys, h] at hk
    rcases hk with hk | ⟨it, hit, hb⟩
    · simp [map_keys] at hk
    · rw [hbin k]
      intro hnil
      simp only [List.map_eq_nil_iff, List.filter_eq_nil_iff] at hnil
      exact hnil it hit hb

theorem bin_genesets_bins_exact_witness :
    catalog_state._geneset_bins = []
    ∧ (catalog_state._snp_intervals.map Prod.fst).Sorted (· < ·)
    ∧ 2 ∈ (bin_genesets catalog_state 0)._user_snp_geneset_sizes
    ∧ bin_of (bin_genesets catalog_state 0)._geneset_bins 2
        = (catalog_state._snp_intervals.filter (fun e =>
            decide (resolved_genes catalog_state._gene_interval_tree e.2 0 ≠ []
              ∧ min (resolved_genes catalog_state._gene_interval_tree e.2 0).length 10 = 2))).map
          (fun e => resolved_genes catalog_state._gene_interval_tree e.2 0)
    ∧ (bin_genesets catalog_state 0)._geneset_bins = [(2, [[0, 1]]), (5, [[3, 4, 5, 6, 7]])]
    ∧ (catalog_build crowded_state 0).map (fun s2 => s2._geneset_bins)
        = some [(10, [[0, 1, 2, 3, 4, 5, 6, 7, 8, 9, 10]])] :=
  ⟨rfl, by decide!, by decide,
    (bin_genesets_bins_exact catalog_state 0 rfl (by decide!)).1 2 (by decide),
    by decide, by decide⟩

/-! ## Lemmas on the parallel region -/

theorem thread_trials_eq (s : State) (i : Nat) (user_score : LogScore)
    (surrogate : Nat → List (List Nat)) (assigned : List Nat) :
    thread_trials s i user_score surrogate assigned
      = (assigned.filter (fun j =>
          LogScore.le user_score (score_binary s i (surrogate j)))).length := by
  unfold thread_trials
  rw [count_foldl (fun j => LogScore.le user_score (score_binary s i (surrogate j)))]
  simp

theorem parallel_trials_eq (s : State) (i : Nat) (user_score : LogScore)
    (surrogate : Nat → List (List Nat)) (threads : List (List Nat)) :
    parallel_trials s i user_score surrogate threads
      = (threads.flatten.filter (fun j =>
          LogScore.le user_score (score_binary s i (surrogate j)))).length := by
  unfold parallel_trials
  suffices h : ∀ init, threads.foldl (fun nulls_observed assigned =>
      nulls_observed + thread_trials s i user_score surrogate assigned) init
      = init + (threads.flatten.filter (fun j =>
          LogScore.le user_score (score_binary s i (surrogate j)))).length by
    simpa using h 0
  induction threads with
  | nil => simp
  | cons t rest ih =>
    intro init
    rw [List.foldl_cons, ih, List.flatten_cons, List.filter_append, List.length_append,
      thread_trials_eq]
    omega

theorem blocks_perm (a b c d : List Nat) :
    ([c, a, d, b] : List (List Nat)).flatten.Perm (a ++ (b ++ (c ++ d))) := by
  simp only [List.flatten_cons, List.flatten_nil, List.append_nil]
  rw [← Multiset.coe_eq_coe]
  simp only [← Multiset.coe_add]
  abel

/-- C15: for a tested column and a fixed surrogate set for each of the 1000 trials,
`nulls_observed` after the parallel region is the number of trials whose surrogate score is
`>=` the observed score, for every division of the trials among threads and every order in which
the threads add their private counts; it is the count of one thread running all the trials, and,
when the surrogate sets are those that the draws give in trial order, the count of the sequential
loop. -/
theorem parallel_trials_partition_invariant (s : State) (i : Nat) (user_score : LogScore)
    (surrogate : Nat → List (List Nat)) (threads : List (List Nat))
    (hpart : threads.flatten.Perm (List.range LOOPS)) :
    parallel_trials s i user_score surrogate threads
        = ((List.range LOOPS).filter (fun j =>
            LogScore.le user_score (score_binary s i (surrogate j)))).length
    ∧ parallel_trials s i user_score surrogate threads
        = parallel_trials s i user_score surrogate [List.range LOOPS]
    ∧ ∀ g, (∀ k ∈ s._user_snp_geneset_sizes, bin_of s._geneset_bins k ≠ []) →
        null_trials i user_score LOOPS s g 0
          = some (s, { g with pos := g.pos + LOOPS * s._user_snp_geneset_sizes.length },
              parallel_trials s i user_score (trial_snpset s g) threads) := by
  have hcount : ∀ sur : Nat → List (List Nat), parallel_trials s i user_score sur threads
      = ((List.range LOOPS).filter (fun j =>
          LogScore.le user_score (score_binary s i (sur j)))).length := by
    intro sur
    rw [parallel_trials_eq]
    exact (hpart.filter _).length_eq
  refine ⟨hcount surrogate, ?_, ?_⟩
  · rw [hcount surrogate, parallel_trials_eq]
    simp
  · intro g hbins
    rw [null_trials_count s i user_score LOOPS g 0 hbins, hcount (trial_snpset s g),
      Nat.zero_add]

theorem parallel_trials_partition_invariant_witness :
    four_threads.flatten.Perm (List.range LOOPS)
    ∧ parallel_trials tested_state 0 (score_binary tested_state 0 tested_state._user_genesets)
        (trial_snpset tested_state ⟨fun n => n, 0⟩) four_threads
      = ((List.range LOOPS).filter (fun j =>
          LogScore.le (score_binary tested_state 0 tested_state._user_genesets)
            (score_binary tested_state 0
              (trial_snpset tested_state ⟨fun n => n, 0⟩ j)))).length
    ∧ parallel_trials tested_state 0 (score_binary tested_state 0 tested_state._user_genesets)
        (trial_snpset tested_state ⟨fun n => n, 0⟩) four_threads = 500 := by
  have hpart : four_threads.flatten.Perm (List.range LOOPS) := by
    have hr : List.range LOOPS = List.range' 0 250 ++ (List.range' 250 250
        ++ (List.range' 500 250 ++ List.range' 750 250)) := by decide!
    rw [hr]
    exact blocks_perm _ _ _ _
  exact ⟨hpart,
    (parallel_trials_partition_invariant tested_state 0
      (score_binary tested_state 0 tested_state._user_genesets)
      (trial_snpset tested_state ⟨fun n => n, 0⟩) four_threads hpart).1,
    by decide!⟩

/-! ## Lemmas on `read_bed_interval_tree` -/

theorem mem_foldl_set_insert {κ : Type} [DecidableEq κ] [LT κ]
    [DecidableRel (fun a b : κ => a < b)] (v acc : List κ) (a : κ) :
    a ∈ v.foldl (fun acc x => set_insert x acc) acc ↔ a ∈ acc ∨ a ∈ v := by
  induction v generalizing acc with
  | nil => simp
  | cons x rest ih => simp [ih, mem_set_insert]; tauto

theorem mem_whiteset_of (whitelist : List String) (a : String) :
    a ∈ whiteset_of whitelist ↔ a ∈ whitelist := by
  simp [whiteset_of, mem_foldl_set_insert]

theorem map_index_of_some {κ α : Type} [DecidableEq κ] [LT κ]
    [DecidableRel (fun a b : κ => a < b)] (m : List (κ × α)) (k : κ) (d v : α)
    (h : map_find m k = some v) : map_index m k d = (m, v) := by
  unfold map_index
  rw [h]

theorem map_find_assign_index {κ α : Type} [DecidableEq κ] [LT κ]
    [DecidableRel (fun a b : κ => a < b)] (m : List (κ × α)) (k k2 : κ) (d v : α) :
    map_find (map_assign (map_index m k d).1 k v) k2
      = if k = k2 then some v else map_find m k2 := by
  simp only [map_find_map_assign, map_find_map_index]
  by_cases h : k = k2
  · subst h; simp
  · simp [h]

theorem sum_map_insert {κ α : Type} [LT κ] [DecidableRel (fun a b : κ => a < b)]
    (size : α → Nat) (m : List (κ × α)) (k : κ) (d : α) :
    ((map_insert k d m).map (fun e => size e.2)).sum
      = (m.map (fun e => size e.2)).sum + size d := by
  induction m with
  | nil => simp [map_insert]
  | cons e rest ih =>
    unfold map_insert
    split
    · simp only [List.map_cons, List.sum_cons]; omega
    · simp only [List.map_cons, List.sum_cons, ih]; omega

theorem sum_map_assign {κ α : Type} [DecidableEq κ] (size : α → Nat) (m : List (κ × α))
    (k : κ) (old v : α) (h : map_find m k = some old) :
    ((map_assign m k v).map (fun e => size e.2)).sum + size old
      = (m.map (fun e => size e.2)).sum + size v := by
  induction m with
  | nil => simp [map_find] at h
  | cons e rest ih =>
    unfold map_find at h
    unfold map_assign
    by_cases he : e.1 = k
    · simp only [he, if_true, Option.some.injEq] at h
      subst h
      simp only [he, if_true, List.map_cons, List.sum_cons]
      omega
    · simp only [he, if_false] at h
      have := ih h
      simp only [he, if_false, List.map_cons, List.sum_cons]
      omega

theorem sum_assign_index {κ α : Type} [DecidableEq κ] [LT κ]
    [DecidableRel (fun a b : κ => a < b)] (size : α → Nat) (m : List (κ × α)) (k : κ)
    (d v : α) (hd : size d = 0) :
    ((map_assign (map_index m k d).1 k v).map (fun e => size e.2)).sum
        + size (map_index m k d).2
      = (m.map (fun e => size e.2)).sum + size v := by
  cases hf : map_find m k with
  | some old =>
    rw [map_index_of_some m k d old hf]
    exact sum_map_assign size m k old v hf
  | none =>
    have hi : map_index m k d = (map_insert k d m, d) := by
      unfold map_index; rw [hf]
    rw [hi]
    have hfi : map_find (map_insert k d m) k = some d := by
      rw [map_find_map_insert m k k d hf]; simp
    have := sum_map_assign size (map_insert k d m) k d v hfi
    rw [sum_map_insert] at this
    simp only at this ⊢
    omega

theorem perm_map_keys_map_insert {κ α : Type} [LT κ] [DecidableRel (fun a b : κ => a < b)]
    (m : List (κ × α)) (k : κ) (d : α) :
    (map_keys (map_insert k d m)).Perm (k :: map_keys m) := by
  induction m with
  | nil => exact List.Perm.refl _
  | cons e rest ih =>
    unfold map_insert
    split
    · exact List.Perm.refl _
    · simp only [map_keys, List.map_cons] at ih ⊢
      exact (List.Perm.cons e.1 ih).trans (List.Perm.swap _ _ _)

theorem nodup_keys_assign_index {κ α : Type} [DecidableEq κ] [LT κ]
    [DecidableRel (fun a b : κ => a < b)] (m : List (κ × α)) (k : κ) (d v : α)
    (h : (map_keys m).Nodup) : (map_keys (map_assign (map_index m k d).1 k v)).Nodup := by
  rw [map_keys_map_assign]
  cases hf : map_find m k with
  | some old => rw [map_index_of_some m k d old hf]; exact h
  | none =>
    have hi : map_index m k d = (map_insert k d m, d) := by
      unfold map_index; rw [hf]
    rw [hi]
    refine (perm_map_keys_map_insert m k d).nodup_iff.mpr (List.nodup_cons.mpr ⟨?_, h⟩)
    rw [mem_map_keys_iff, hf]
    simp

theorem mem_keys_assign_index {κ α : Type} [DecidableEq κ] [LT κ]
    [DecidableRel (fun a b : κ => a < b)] (m : List (κ × α)) (k a : κ) (d v : α) :
    a ∈ map_keys (map_assign (map_index m k d).1 k v) ↔ a = k ∨ a ∈ map_keys m := by
  simp only [mem_map_keys_iff, map_find_assign_index]
  by_cases h : k = a
  · subst h; simp
  · simp [h]; exact fun h2 => absurd h2.symm h

theorem map_find_of_mem_nodup {κ α : Type} [DecidableEq κ] (m : List (κ × α)) (k : κ) (v : α)
    (hn : (map_keys m).Nodup) (h : (k, v) ∈ m) : map_find m k = some v := by
  induction m with
  | nil => simp at h
  | cons e rest ih =>
    simp only [map_keys, List.map_cons, List.nodup_cons] at hn
    unfold map_find
    rcases List.mem_cons.mp h with h1 | h1
    · subst h1; simp
    · have hne : ¬ e.1 = k := by
        intro he
        apply hn.1
        rw [he]
        exact List.mem_map_of_mem Prod.fst h1
      simp only [hne, if_false]
      exact ih hn.2 h1

/-- The map `index` sends every name of the whitelist to a position at which the whitelist
holds that name. -/
theorem whitelist_index_loop_spec (whitelist : List String) (rest : List String) (i : Nat)
    (index : List (String × Nat))
    (hrest : ∀ j, j < rest.length → whitelist[i + j]? = rest[j]?)
    (hinv : ∀ n v, map_find index n = some v → whitelist[v]? = some n) :
    (∀ n v, map_find (whitelist_index_loop rest i index) n = some v → whitelist[v]? = some n)
    ∧ (∀ n, (map_find index n).isSome ∨ n ∈ rest →
        (map_find (whitelist_index_loop rest i index) n).isSome) := by
  induction rest generalizing i index with
  | nil =>
    simp only [whitelist_index_loop]
    exact ⟨hinv, fun n h => h.elim id (fun h2 => absurd h2 (List.not_mem_nil _))⟩
  | cons name rest ih =>
    unfold whitelist_index_loop
    have h0 : whitelist[i]? = some name := by
      have := hrest 0 (by simp)
      simpa using this
    obtain ⟨h1, h2⟩ := ih (i + 1) (map_assign (map_index index name 0).1 name i)
      (fun j hj => by
        have := hrest (j + 1) (by simp; omega)
        have e : i + 1 + j = i + (j + 1) := by omega
        rw [e, this]
        simp)
      (fun n v hv => by
        rw [map_find_assign_index] at hv
        by_cases hn : name = n
        · subst hn
          simp only [if_true, Option.some.injEq] at hv
          rw [← hv]; exact h0
        · simp only [hn, if_false] at hv
          exact hinv n v hv)
    refine ⟨h1, fun n hn => h2 n ?_⟩
    rw [map_find_assign_index]
    by_cases hname : name = n
    · simp [hname]
    · simp only [hname, if_false]
      rcases hn with hn | hn
      · exact Or.inl hn
      · rcases List.mem_cons.mp hn with h3 | h3
        · exact absurd h3.symm hname
        · exact Or.inr h3

theorem whitelist_index_spec (whitelist : List String) :
    (∀ n v, map_find (whitelist_index_loop whitelist 0 []) n = some v →
      whitelist[v]? = some n)
    ∧ (∀ n, n ∈ whitelist → (map_find (whitelist_index_loop whitelist 0 []) n).isSome) := by
  obtain ⟨h1, h2⟩ := whitelist_index_loop_spec whitelist whitelist 0 []
    (fun j _ => by simp) (fun n v h => by simp [map_find] at h)
  exact ⟨h1, fun n hn => h2 n (Or.inr hn)⟩

/-- One row of the gene BED file: a kept row appends its interval to the vector of its
chromosome, any other row adds one to the counter. -/
theorem read_bed_interval_tree_row_spec (ws : List String) (index : List (String × Nat))
    (hcomplete : ∀ n, n ∈ ws → (map_find index n).isSome)
    (ivm : List (String × List Interval)) (sk : Nat) (row : BEDRow) :
    (read_bed_interval_tree_row ws (ivm, index, sk) row).2.1 = index
    ∧ (read_bed_interval_tree_row ws (ivm, index, sk) row).2.2
        = sk + (if row.name ∈ ws then 0 else 1)
    ∧ (∀ c, map_find (read_bed_interval_tree_row ws (ivm, index, sk) row).1 c
        = if row.name ∈ ws ∧ row.i.chrom = c then
            some ((map_find ivm c).getD [] ++ [stored_interval index row])
          else map_find ivm c)
    ∧ (((read_bed_interval_tree_row ws (ivm, index, sk) row).1.map
          (fun e => e.2.length)).sum
        = (ivm.map (fun e => e.2.length)).sum + (if row.name ∈ ws then 1 else 0))
    ∧ ((map_keys ivm).Nodup →
        (map_keys (read_bed_interval_tree_row ws (ivm, index, sk) row).1).Nodup) := by
  by_cases hk : row.name ∈ ws
  · obtain ⟨v, hv⟩ := Option.isSome_iff_exists.mp (hcomplete _ hk)
    have hval : read_bed_interval_tree_row ws (ivm, index, sk) row
        = (map_assign (map_index ivm row.i.chrom []).1 row.i.chrom
            ((map_index ivm row.i.chrom []).2 ++ [⟨row.i.start, row.i.end_, v⟩]), index, sk) := by
      unfold read_bed_interval_tree_row
      have hc : set_count ws row.name ≠ 0 := by simp [set_count, hk]
      rw [if_pos hc]
      simp only [map_index_of_some index row.name 0 v hv]
    rw [hval]
    refine ⟨rfl, ?_, ?_, ?_, ?_⟩
    · simp [hk]
    · intro c
      show map_find (map_assign (map_index ivm row.i.chrom []).1 row.i.chrom _) c = _
      rw [map_find_assign_index, map_index_snd]
      by_cases hcc : row.i.chrom = c
      · subst hcc
        simp [stored_interval, hv, hk]
      · simp [hcc]
    · have := sum_assign_index (fun l : List Interval => l.length) ivm row.i.chrom []
        ((map_index ivm row.i.chrom []).2 ++ [⟨row.i.start, row.i.end_, v⟩]) rfl
      simp only [List.length_append, List.length_singleton] at this
      simp only [hk, if_true]
      omega
    · exact nodup_keys_assign_index ivm row.i.chrom [] _
  · have hval : read_bed_interval_tree_row ws (ivm, index, sk) row = (ivm, index, sk + 1) := by
      unfold read_bed_interval_tree_row
      have hc : ¬ set_count ws row.name ≠ 0 := by simp [set_count, hk]
      rw [if_neg hc]
    rw [hval]
    refine ⟨rfl, ?_, ?_, ?_, id⟩
    · simp [hk]
    · intro c; simp [hk]
    · simp [hk]

/-- The loop over the rows of the gene BED file. -/
theorem read_bed_interval_tree_rows_spec (ws : List String) (index : List (String × Nat))
    (hcomplete : ∀ n, n ∈ ws → (map_find index n).isSome) (rows : List BEDRow)
    (ivm : List (String × List Interval)) (sk : Nat) :
    (rows.foldl (read_bed_interval_tree_row ws) (ivm, index, sk)).2.2
        = sk + (rows.filter (fun row => decide (row.name ∉ ws))).length
    ∧ (∀ c, (map_find (rows.foldl (read_bed_interval_tree_row ws) (ivm, index, sk)).1 c).getD []
        = (map_find ivm c).getD []
          ++ (rows.filter (fun row => decide (row.name ∈ ws ∧ row.i.chrom = c))).map
              (stored_interval index))
    ∧ (∀ c, (map_find (rows.foldl (read_bed_interval_tree_row ws) (ivm, index, sk)).1 c).isSome
        ↔ (map_find ivm c).isSome ∨ ∃ row ∈ rows, row.name ∈ ws ∧ row.i.chrom = c)
    ∧ (((rows.foldl (read_bed_interval_tree_row ws) (ivm, index, sk)).1.map
          (fun e => e.2.length)).sum
        = (ivm.map (fun e => e.2.length)).sum
          + (rows.filter (fun row => decide (row.name ∈ ws))).length)
    ∧ ((map_keys ivm).Nodup →
        (map_keys (rows.foldl (read_bed_interval_tree_row ws) (ivm, index, sk)).1).Nodup) := by
  induction rows generalizing ivm sk with
  | nil => simp
  | cons row rest ih =>
    obtain ⟨a1, a2, a3, a4, a5⟩ := read_bed_interval_tree_row_spec ws index hcomplete ivm sk row
    simp only [List.foldl_cons]
    generalize hr : read_bed_interval_tree_row ws (ivm, index, sk) row = r at a1 a2 a3 a4 a5
    obtain ⟨ivm2, index2, sk2⟩ := r
    simp only at a1 a2 a3 a4 a5
    subst a1
    obtain ⟨b1, b2, b3, b4, b5⟩ := ih ivm2 sk2
    refine ⟨?_, ?_, ?_, ?_, fun hn => b5 (a5 hn)⟩
    · rw [b1, a2, List.filter_cons]
      by_cases hk : row.name ∈ ws
      · simp [hk]
      · simp [hk]; omega
    · intro c
      rw [b2 c, a3 c, List.filter_cons]
      by_cases hk : row.name ∈ ws ∧ row.i.chrom = c
      · simp [hk]
      · simp [hk]
    · intro c
      rw [b3 c, a3 c]
      by_cases hk : row.name ∈ ws ∧ row.i.chrom = c
      · simp only [hk, and_self, if_true, Option.isSome_some, true_or, true_iff]
        exact Or.inr ⟨row, List.mem_cons_self _ _, hk⟩
      · simp only [hk, if_false, List.mem_cons, exists_eq_or_imp, false_or]
    · rw [b4, a4, List.filter_cons]
      by_cases hk : row.name ∈ ws
      · simp [hk]; omega
      · simp [hk]

/-- The loop over the chromosomes: the tree of a chromosome holds the vector of the
chromosome. -/
theorem read_bed_interval_tree_chroms_spec (ivm : List (String × List Interval))
    (items : List (String × List Interval))
    (hitems : ∀ e ∈ items, map_find ivm e.1 = some e.2)
    (tree : List (String × IntervalTree)) :
    (∀ c, map_find (items.foldl read_bed_interval_tree_chrom (ivm, tree)).2 c
        = if c ∈ map_keys items then (map_find ivm c).map IntervalTree.mk
          else map_find tree c)
    ∧ ((map_keys items).Nodup → (∀ k ∈ map_keys items, k ∉ map_keys tree) →
        stored_count (items.foldl read_bed_interval_tree_chrom (ivm, tree)).2
          = stored_count tree + (items.map (fun e => e.2.length)).sum) := by
  induction items generalizing tree with
  | nil => simp [map_keys]
  | cons item rest ih =>
    have hitem := hitems item (List.mem_cons_self _ _)
    have hstep : read_bed_interval_tree_chrom (ivm, tree) item
        = (ivm, map_assign (map_index tree item.1 default).1 item.1 ⟨item.2⟩) := by
      unfold read_bed_interval_tree_chrom
      simp only [map_index_of_some ivm item.1 [] item.2 hitem]
    obtain ⟨h1, h2⟩ := ih (fun e he => hitems e (List.mem_cons_of_mem _ he))
      (map_assign (map_index tree item.1 default).1 item.1 ⟨item.2⟩)
    simp only [List.foldl_cons, hstep]
    constructor
    · intro c
      rw [h1 c, map_find_assign_index]
      simp only [map_keys, List.map_cons, List.mem_cons]
      by_cases hc : c ∈ List.map Prod.fst rest
      · simp [hc]
      · by_cases hc2 : item.1 = c
        · subst hc2
          simp [hc, hitem]
        · have hc3 : ¬ c = item.1 := fun h => hc2 h.symm
          simp [hc, hc2, hc3]
    · intro hn hdisj
      simp only [map_keys, List.map_cons, List.nodup_cons, List.mem_cons] at hn hdisj
      have hnot : map_find tree item.1 = none := by
        have := hdisj item.1 (Or.inl rfl)
        rw [show List.map Prod.fst tree = map_keys tree from rfl, mem_map_keys_iff] at this
        simpa using this
      have hsum := sum_assign_index (fun t : IntervalTree => t.intervals.length) tree item.1
        default ⟨item.2⟩ rfl
      rw [map_index_snd, hnot] at hsum
      simp only [Option.getD_none] at hsum
      have hd : (default : IntervalTree).intervals.length = 0 := rfl
      rw [h2 hn.2 (fun k hk => by
        rw [mem_keys_assign_index]
        rintro (h3 | h3)
        · exact hn.1 (h3 ▸ hk)
        · exact hdisj k (Or.inr hk) h3)]
      simp only [stored_count, List.map_cons, List.sum_cons] at hsum ⊢
      omega

theorem length_filter_add_length_filter_not (p : BEDRow → Prop) [DecidablePred p]
    (rows : List BEDRow) :
    (rows.filter (fun row => decide (p row))).length
      + (rows.filter (fun row => decide (¬ p row))).length = rows.length := by
  induction rows with
  | nil => rfl
  | cons row rest ih =>
    by_cases h : p row
    · have h1 : decide (p row) = true := by simp [h]
      have h2 : decide (¬ p row) = false := by simp [h]
      simp only [List.filter_cons, h1, h2, if_true, List.length_cons, Bool.false_eq_true,
        if_false]
      omega
    · have h1 : decide (p row) = false := by simp [h]
      have h2 : decide (¬ p row) = true := by simp [h]
      simp only [List.filter_cons, h1, h2, if_true, List.length_cons, Bool.false_eq_true,
        if_false]
      omega

/-- The tree map that `read_bed_interval_tree` builds from an empty one: the tree of a
chromosome holds, in file order, the intervals of the kept rows of that chromosome. -/
theorem read_bed_interval_tree_find (rows : List BEDRow) (whitelist : List String) (c : String) :
    map_find (read_bed_interval_tree rows whitelist []).1 c
      = if ∃ row ∈ rows, row.name ∈ whitelist ∧ row.i.chrom = c then
          some ⟨(rows.filter (fun row => decide (row.name ∈ whitelist ∧ row.i.chrom = c))).map
            (stored_interval (whitelist_index_loop whitelist 0 []))⟩
        else none := by
  have hcomplete : ∀ n, n ∈ whiteset_of whitelist →
      (map_find (whitelist_index_loop whitelist 0 []) n).isSome :=
    fun n hn => (whitelist_index_spec whitelist).2 n ((mem_whiteset_of whitelist n).mp hn)
  obtain ⟨_, b2, b3, _, b5⟩ := read_bed_interval_tree_rows_spec (whiteset_of whitelist)
    (whitelist_index_loop whitelist 0 []) hcomplete rows [] 0
  have hn := b5 (by simp [map_keys])
  obtain ⟨c1, _⟩ := read_bed_interval_tree_chroms_spec _ _
    (fun e he => map_find_of_mem_nodup _ e.1 e.2 hn he) []
  have hfind := c1 c
  have hb3 := b3 c
  have hb2 := b2 c
  simp only [map_find, Option.isSome_none, Bool.false_eq_true, false_or, Option.getD_none,
    List.nil_append, mem_whiteset_of] at hb3 hb2
  have hgoal : map_find (read_bed_interval_tree rows whitelist []).1 c
      = map_find (List.foldl read_bed_interval_tree_chrom
          ((List.foldl (read_bed_interval_tree_row (whiteset_of whitelist))
            ([], whitelist_index_loop whitelist 0 [], 0) rows).1, [])
          (List.foldl (read_bed_interval_tree_row (whiteset_of whitelist))
            ([], whitelist_index_loop whitelist 0 [], 0) rows).1).2 c := rfl
  rw [hgoal, hfind]
  by_cases hex : ∃ row ∈ rows, row.name ∈ whitelist ∧ row.i.chrom = c
  · have hsome := hb3.mpr hex
    have hmem := (mem_map_keys_iff _ c).mpr hsome
    obtain ⟨t, ht⟩ := Option.isSome_iff_exists.mp hsome
    rw [ht] at hb2
    simp only [Option.getD_some] at hb2
    rw [if_pos hmem, if_pos hex, ht, Option.map_some', hb2]
  · have hmem : c ∉ map_keys (List.foldl (read_bed_interval_tree_row (whiteset_of whitelist))
        ([], whitelist_index_loop whitelist 0 [], 0) rows).1 :=
      fun h => hex (hb3.mp ((mem_map_keys_iff _ c).mp h))
    rw [if_neg hmem, if_neg hex]
    rfl

/-- C16: `read_bed_interval_tree`, filling an empty tree map, keeps a row of the gene BED file
if and only if its name is a row name of the expression matrix: a kept row is stored in the tree
of its chromosome with its start and end and a value `v` with `row_names[v]` the name of the
row, every stored interval is a kept row, every other row is counted as skipped, and the stored
intervals plus the skipped rows are the rows read. -/
theorem read_bed_interval_tree_keeps_whitelisted (rows : List BEDRow)
    (whitelist : List String) :
    (∀ row ∈ rows, row.name ∈ whitelist →
      ∃ t, map_find (read_bed_interval_tree rows whitelist []).1 row.i.chrom = some t
        ∧ ∃ iv ∈ t.intervals, iv.start = row.i.start ∧ iv.stop = row.i.end_
          ∧ whitelist[iv.value]? = some row.name)
    ∧ (∀ c t, map_find (read_bed_interval_tree rows whitelist []).1 c = some t →
        ∀ iv ∈ t.intervals, ∃ row ∈ rows, row.name ∈ whitelist ∧ row.i.chrom = c
          ∧ iv.start = row.i.start ∧ iv.stop = row.i.end_
          ∧ whitelist[iv.value]? = some row.name)
    ∧ (read_bed_interval_tree rows whitelist []).2
        = (rows.filter (fun row => decide (row.name ∉ whitelist))).length
    ∧ stored_count (read_bed_interval_tree rows whitelist []).1
        + (read_bed_interval_tree rows whitelist []).2 = rows.length := by
  have hvalue : ∀ row : BEDRow, row.name ∈ whitelist →
      whitelist[(stored_interval (whitelist_index_loop whitelist 0 []) row).value]?
        = some row.name := by
    intro row hrow
    obtain ⟨v, hv⟩ := Option.isSome_iff_exists.mp ((whitelist_index_spec whitelist).2 _ hrow)
    simp only [stored_interval, hv, Option.getD_some]
    exact (whitelist_index_spec whitelist).1 _ v hv
  have hcomplete : ∀ n, n ∈ whiteset_of whitelist →
      (map_find (whitelist_index_loop whitelist 0 []) n).isSome :=
    fun n hn => (whitelist_index_spec whitelist).2 n ((mem_whiteset_of whitelist n).mp hn)
  obtain ⟨b1, _, _, b4, b5⟩ := read_bed_interval_tree_rows_spec (whiteset_of whitelist)
    (whitelist_index_loop whitelist 0 []) hcomplete rows [] 0
  have hn := b5 (by simp [map_keys])
  obtain ⟨_, c2⟩ := read_bed_interval_tree_chroms_spec _ _
    (fun e he => map_find_of_mem_nodup _ e.1 e.2 hn he) []
  have hskip : (read_bed_interval_tree rows whitelist []).2
      = (rows.filter (fun row => decide (row.name ∉ whitelist))).length := by
    unfold read_bed_interval_tree
    simp only [b1, Nat.zero_add, mem_whiteset_of]
  refine ⟨?_, ?_, hskip, ?_⟩
  · intro row hrow hname
    have hex : ∃ r ∈ rows, r.name ∈ whitelist ∧ r.i.chrom = row.i.chrom :=
      ⟨row, hrow, hname, rfl⟩
    refine ⟨_, by rw [read_bed_interval_tree_find, if_pos hex],
      stored_interval (whitelist_index_loop whitelist 0 []) row, ?_, rfl, rfl,
      hvalue row hname⟩
    simp only [List.mem_map, List.mem_filter, decide_eq_true_eq]
    exact ⟨row, ⟨hrow, hname, rfl⟩, rfl⟩
  · intro c t ht iv hiv
    rw [read_bed_interval_tree_find] at ht
    split at ht
    · simp only [Option.some.injEq] at ht
      subst ht
      simp only [List.mem_map, List.mem_filter, decide_eq_true_eq] at hiv
      obtain ⟨row, ⟨hrow, hname, hchrom⟩, rfl⟩ := hiv
      exact ⟨row, hrow, hname, hchrom, rfl, rfl, hvalue row hname⟩
    · exact absurd ht (by simp)
  · rw [hskip]
    have hcount : stored_count (read_bed_interval_tree rows whitelist []).1
        = (rows.filter (fun row => decide (row.name ∈ whitelist))).length := by
      unfold read_bed_interval_tree
      simp only
      rw [c2 hn (fun k _ => by simp [map_keys]), b4]
      simp [stored_count, mem_whiteset_of]
    rw [hcount]
    exact length_filter_add_length_filter_not (fun row => row.name ∈ whitelist) rows

/-- The tree map and the skipped count for `gene_rows` and the row names `g0`, `g1`. -/
theorem read_bed_interval_tree_gene_rows :
    read_bed_interval_tree gene_rows ["g0", "g1"] []
      = ([("chr1", ⟨[⟨100, 200, 0⟩, ⟨150, 250, 0⟩]⟩), ("chr2", ⟨[⟨10, 20, 1⟩]⟩)], 1) := by
  decide!

/-! ## Lemmas on the whole catalog build -/

theorem resolved_genes_of_only_empty_trees_added (a b : List (String × IntervalTree))
    (h : only_empty_trees_added a b) (iv : genomic_interval) (slop : Int) :
    resolved_genes b iv slop = resolved_genes a iv slop := by
  simp only [resolved_genes, resolveOverlaps, query_of_only_empty_trees_added a b h]

theorem mem_filterMap_user_geneset (si : List (String × genomic_interval))
    (tm : List (String × IntervalTree)) (slop : Int) (names : List String) (g : List Nat)
    (h : g ∈ names.filterMap (user_geneset si tm slop)) :
    ∃ snp ∈ names, ∃ iv, (snp, iv) ∈ si ∧ user_geneset si tm slop snp = some g
      ∧ g = resolved_genes tm iv slop ∧ g ≠ [] := by
  simp only [List.mem_filterMap] at h
  obtain ⟨snp, hsnp, hu⟩ := h
  have hu2 := hu
  unfold user_geneset at hu2
  cases hf : map_find si snp with
  | none => simp [hf] at hu2
  | some iv =>
    simp only [hf] at hu2
    split at hu2
    · exact absurd hu2 (by simp)
    · next hne =>
      simp only [Option.some.injEq] at hu2
      exact ⟨snp, hsnp, iv, mem_of_map_find si snp iv hf, hu, hu2.symm, hu2 ▸ hne⟩

/-- C17: when every user SNP that has a reference interval and a non-empty resolved geneset is
named in the null set, then after `report_user_snp_genes` (started with no sizes and no bins),
`drop_snp_intervals` and `bin_genesets` with the same slop, the bin of every size of
`_user_snp_geneset_sizes` is non-empty, and `generate_snpset` returns a full sample: no remainder
by zero and no index out of the bin. -/
theorem catalog_build_bins_nonempty (s : State) (slop : Int)
    (hs : s._user_snp_geneset_sizes = []) (hb : s._geneset_bins = [])
    (hnull : ∀ snp ∈ s._user_snp_names,
      (user_geneset s._snp_intervals s._gene_interval_tree slop snp).isSome →
        snp ∈ s._null_snp_names) :
    ∀ s1 out, report_user_snp_genes s slop = some (s1, out) →
      (∀ k ∈ (bin_genesets (drop_snp_intervals s1) slop)._user_snp_geneset_sizes,
        bin_of (bin_genesets (drop_snp_intervals s1) slop)._geneset_bins k ≠ [])
      ∧ ∀ g, ∃ snpset g2,
          generate_snpset (bin_genesets (drop_snp_intervals s1) slop) g
            = some (snpset, bin_genesets (drop_snp_intervals s1) slop, g2)
          ∧ snpset.length
            = (bin_genesets (drop_snp_intervals s1) slop)._user_snp_geneset_sizes.length := by
  intro s1 out h1
  obtain ⟨_, hs1⟩ := report_user_snp_genes_loop_result slop s._user_snp_names s _ (s1, out) h1
  obtain ⟨hsi, hnn, hbins, _, htree⟩ :=
    report_user_snp_genes_loop_frame slop s._user_snp_names s _ (s1, out) h1
  simp only at hs1 hsi hnn hbins htree
  rw [hs, List.nil_append] at hs1
  have hmain : ∀ k ∈ (bin_genesets (drop_snp_intervals s1) slop)._user_snp_geneset_sizes,
      bin_of (bin_genesets (drop_snp_intervals s1) slop)._geneset_bins k ≠ [] := by
    intro k hk
    have hsz : (drop_snp_intervals s1)._user_snp_geneset_sizes = s1._user_snp_geneset_sizes :=
      rfl
    have hk0 := hk
    rw [bin_genesets_sizes, hsz, hs1, List.map_map] at hk
    simp only [List.mem_map, Function.comp] at hk
    obtain ⟨g, hgmem, hgk⟩ := hk
    obtain ⟨snp, hsnp, iv, hiv, hu, hres, hne⟩ :=
      mem_filterMap_user_geneset _ _ _ _ g hgmem
    have hin : snp ∈ s._null_snp_names := hnull snp hsnp (by rw [hu]; rfl)
    have hdrop : (drop_snp_intervals s1)._snp_intervals
        = s1._snp_intervals.filter (fun e => decide (e.1 ∈ s1._null_snp_names)) := by
      simp only [drop_snp_intervals, drop_snp_intervals_loop_eq_filter]
    have hdb : (drop_snp_intervals s1)._geneset_bins = [] := by
      show s1._geneset_bins = []
      rw [hbins, hb]
    have hdt : (drop_snp_intervals s1)._gene_interval_tree = s1._gene_interval_tree := rfl
    rw [bin_genesets_bin_of, hdb, hdrop, hdt, hsz]
    simp only [bin_of, map_find, Option.getD_none, List.nil_append, ne_eq, List.map_eq_nil_iff,
      List.filter_eq_nil_iff, List.mem_filter, decide_eq_true_eq, not_forall]
    refine ⟨(snp, iv), ⟨by rw [hsi]; exact hiv, by rw [hnn]; exact hin⟩, ?_⟩
    have hr : resolved_genes s1._gene_interval_tree iv slop = g := by
      rw [resolved_genes_of_only_empty_trees_added _ _ htree, hres]
    simp only [binned, hr, decide_eq_true_eq, not_not, mem_make_set]
    refine ⟨hne, hgk, ?_⟩
    rw [bin_genesets_sizes, hsz] at hk0
    exact hk0
  refine ⟨hmain, fun g => ?_⟩
  obtain ⟨picks, hp, hpl, _⟩ := generate_snpset_loop_spec
    (bin_genesets (drop_snp_intervals s1) slop)._user_snp_geneset_sizes
    (bin_genesets (drop_snp_intervals s1) slop)._geneset_bins g [] hmain
  refine ⟨picks, { g with pos := g.pos
    + (bin_genesets (drop_snp_intervals s1) slop)._user_snp_geneset_sizes.length }, ?_, hpl⟩
  unfold generate_snpset
  rw [hp]
  simp

theorem catalog_build_bins_nonempty_witness :
    crowded_state._user_snp_geneset_sizes = [] ∧ crowded_state._geneset_bins = []
    ∧ (∀ snp ∈ crowded_state._user_snp_names,
        (user_geneset crowded_state._snp_intervals crowded_state._gene_interval_tree 0
          snp).isSome → snp ∈ crowded_state._null_snp_names)
    ∧ ∃ s1 out, report_user_snp_genes crowded_state 0 = some (s1, out)
      ∧ (bin_genesets (drop_snp_intervals s1) 0)._user_snp_geneset_sizes = [10]
      ∧ (∀ k ∈ (bin_genesets (drop_snp_intervals s1) 0)._user_snp_geneset_sizes,
          bin_of (bin_genesets (drop_snp_intervals s1) 0)._geneset_bins k ≠ [])
      ∧ ∃ snpset g2,
          generate_snpset (bin_genesets (drop_snp_intervals s1) 0) ⟨fun n => n, 0⟩
            = some (snpset, bin_genesets (drop_snp_intervals s1) 0, g2)
          ∧ snpset.length
            = (bin_genesets (drop_snp_intervals s1) 0)._user_snp_geneset_sizes.length := by
  have hnull : ∀ snp ∈ crowded_state._user_snp_names,
      (user_geneset crowded_state._snp_intervals crowded_state._gene_interval_tree 0
        snp).isSome → snp ∈ crowded_state._null_snp_names := by decide
  have hm : (report_user_snp_genes crowded_state 0).map
      (fun r => (bin_genesets (drop_snp_intervals r.1) 0)._user_snp_geneset_sizes)
      = some [10] := by decide
  cases h : report_user_snp_genes crowded_state 0 with
  | none => rw [h] at hm; exact absurd hm (by simp)
  | some r =>
    rw [h] at hm
    have hmain := catalog_build_bins_nonempty crowded_state 0 rfl rfl hnull r.1 r.2 h
    exact ⟨rfl, rfl, hnull, r.1, r.2, rfl, by simpa using hm, hmain.1,
      hmain.2 ⟨fun n => n, 0⟩⟩

/-! ## Lemmas on the sign of the score -/

theorem gsl_ran_binomial_pdf_nonneg (k n : Nat) (p : ℚ) (h0 : 0 ≤ p) (h1 : p ≤ 1) :
    0 ≤ gsl_ran_binomial_pdf k p n := by
  unfold gsl_ran_binomial_pdf
  have : 0 ≤ 1 - p := by linarith
  positivity

theorem gsl_ran_binomial_pdf_le_one (k n : Nat) (p : ℚ) (h0 : 0 ≤ p) (h1 : p ≤ 1) :
    gsl_ran_binomial_pdf k p n ≤ 1 := by
  have hq : 0 ≤ 1 - p := by linarith
  by_cases hk : k ∈ Finset.range (n + 1)
  · have hsum : (p + (1 - p)) ^ n
        = ∑ m ∈ Finset.range (n + 1), p ^ m * (1 - p) ^ (n - m) * (n.choose m : ℚ) :=
      add_pow p (1 - p) n
    have hone : (p + (1 - p)) ^ n = 1 := by
      have : p + (1 - p) = 1 := by ring
      rw [this, one_pow]
    have hle := Finset.single_le_sum
      (f := fun m => p ^ m * (1 - p) ^ (n - m) * (n.choose m : ℚ))
      (fun m _ => by positivity) hk
    rw [← hsum, hone] at hle
    unfold gsl_ran_binomial_pdf
    calc (n.choose k : ℚ) * p ^ k * (1 - p) ^ (n - k)
        = p ^ k * (1 - p) ^ (n - k) * (n.choose k : ℚ) := by ring
      _ ≤ 1 := hle
  · have hgt : n < k := by
      simp only [Finset.mem_range, not_lt] at hk
      omega
    unfold gsl_ran_binomial_pdf
    rw [Nat.choose_eq_zero_of_lt hgt]
    simp

/-- A score that is not negative: the `-log10` of a probability, or positive infinity. -/
theorem sum_of_probabilities (l : List ℚ) (h : ∀ x ∈ l, 0 ≤ x ∧ x ≤ 1) :
    (l.map LogScore.neg_log10).sum = LogScore.inf
      ∨ ∃ q, 0 < q ∧ q ≤ 1 ∧ (l.map LogScore.neg_log10).sum = LogScore.fin q := by
  induction l with
  | nil => exact Or.inr ⟨1, by norm_num, le_refl 1, rfl⟩
  | cons x rest ih =>
    have hx := h x (List.mem_cons_self _ _)
    simp only [List.map_cons, List.sum_cons]
    have hterm : LogScore.neg_log10 x = LogScore.inf
        ∨ (0 < x ∧ LogScore.neg_log10 x = LogScore.fin x) := by
      unfold LogScore.neg_log10
      by_cases hpos : 0 < x
      · exact Or.inr ⟨hpos, by simp [hpos]⟩
      · have : x = 0 := le_antisymm (not_lt.mp hpos) hx.1
        exact Or.inl (by simp [this])
    rcases ih (fun y hy => h y (List.mem_cons_of_mem _ hy)) with hr | ⟨q, hq0, hq1, hr⟩
    · rcases hterm with ht | ⟨_, ht⟩ <;> rw [ht, hr] <;> exact Or.inl rfl
    · rcases hterm with ht | ⟨hpos, ht⟩
      · rw [ht, hr]; exact Or.inl rfl
      · rw [ht, hr]
        refine Or.inr ⟨x * q, mul_pos hpos hq0, ?_, rfl⟩
        calc x * q ≤ 1 * 1 := mul_le_mul hx.2 hq1 hq0.le (by norm_num)
          _ = 1 := by norm_num

theorem score_binary_values (s : State) (col : Nat) (S : List (List Nat))
    (h0 : 0 ≤ s._binary_probs.getD col 0) (h1 : s._binary_probs.getD col 0 ≤ 1) :
    ∃ q, 0 < q ∧ q ≤ 1 ∧ score_binary s col S = LogScore.fin q := by
  have hsum := sum_of_probabilities
    (S.map (fun geneset => gsl_ran_binomial_pdf (count_hits s._expression col geneset)
      (s._binary_probs.getD col 0) (to_unsigned (int_cast (s._binary_sums.getD col 0)))))
    (by
      intro x hx
      simp only [List.mem_map] at hx
      obtain ⟨g, _, rfl⟩ := hx
      exact ⟨gsl_ran_binomial_pdf_nonneg _ _ _ h0 h1, gsl_ran_binomial_pdf_le_one _ _ _ h0 h1⟩)
  rw [List.map_map] at hsum
  unfold score_binary
  simp only [score_binary_loop_eq_sum]
  rcases hsum with hinf | ⟨q, hq0, hq1, hfin⟩
  · refine ⟨1, by norm_num, le_refl 1, ?_⟩
    simp only [Function.comp_def] at hinf
    rw [hinf]
    rfl
  · refine ⟨q, hq0, hq1, ?_⟩
    simp only [Function.comp_def] at hfin
    rw [hfin]
    rfl

/-- C18: for a column with `0 <= p <= 1`, `score_binary` is never negative (exact arithmetic), so
the test `user_score <= 0` of the permutation loop holds exactly when the score is `0.0`. -/
theorem score_binary_nonneg (s : State) (col : Nat) (S : List (List Nat))
    (h0 : 0 ≤ s._binary_probs.getD col 0) (h1 : s._binary_probs.getD col 0 ≤ 1) :
    LogScore.le LogScore.zero (score_binary s col S) = true
    ∧ (LogScore.le (score_binary s col S) LogScore.zero = true
        ↔ score_binary s col S = LogScore.zero) := by
  obtain ⟨q, hq0, hq1, hq⟩ := score_binary_values s col S h0 h1
  rw [hq]
  simp only [LogScore.le, LogScore.zero, decide_eq_true_eq, LogScore.fin.injEq]
  exact ⟨hq1, fun h => le_antisymm hq1 h, fun h => h ▸ le_refl _⟩

theorem score_binary_nonneg_witness :
    (0 : ℚ) ≤ tested_state._binary_probs.getD 0 0 ∧ tested_state._binary_probs.getD 0 0 ≤ 1
    ∧ LogScore.le LogScore.zero (score_binary tested_state 0 [[0], [1, 2]]) = true
    ∧ (LogScore.le (score_binary tested_state 0 [[0], [1, 2]]) LogScore.zero = true
        ↔ score_binary tested_state 0 [[0], [1, 2]] = LogScore.zero)
    ∧ score_binary tested_state 0 [[0], [1, 2]] = LogScore.fin (2 / 9)
    ∧ score_binary tested_state 0 [[0, 0]] = LogScore.zero :=
  ⟨by decide!, by decide!,
    (score_binary_nonneg tested_state 0 [[0], [1, 2]] (by decide!) (by decide!)).1,
    (score_binary_nonneg tested_state 0 [[0], [1, 2]] (by decide!) (by decide!)).2,
    by decide!, by decide!⟩

/-! ## Lemmas on constant columns -/

theorem gsl_ran_binomial_pdf_zero_or_one (k n : Nat) (p : ℚ) (hp : p = 0 ∨ p = 1) :
    gsl_ran_binomial_pdf k p n = 0 ∨ gsl_ran_binomial_pdf k p n = 1 := by
  unfold gsl_ran_binomial_pdf
  rcases hp with rfl | rfl
  · cases k with
    | zero => right; simp
    | succ k => left; simp
  · rcases Nat.lt_trichotomy k n with hlt | heq | hgt
    · left
      have : n - k ≠ 0 := by omega
      simp [this]
    · right
      subst heq
      simp
    · left
      rw [Nat.choose_eq_zero_of_lt hgt]
      simp

theorem sum_of_zero_or_one (l : List ℚ) (h : ∀ x ∈ l, x = 0 ∨ x = 1) :
    (l.map LogScore.neg_log10).sum = LogScore.inf
      ∨ (l.map LogScore.neg_log10).sum = LogScore.fin 1 := by
  induction l with
  | nil => exact Or.inr rfl
  | cons x rest ih =>
    simp only [List.map_cons, List.sum_cons]
    have hterm : LogScore.neg_log10 x = LogScore.inf ∨ LogScore.neg_log10 x = LogScore.fin 1 := by
      rcases h x (List.mem_cons_self _ _) with rfl | rfl
      · left; simp [LogScore.neg_log10]
      · right; simp [LogScore.neg_log10]
    rcases ih (fun y hy => h y (List.mem_cons_of_mem _ hy)) with hr | hr <;>
      rcases hterm with ht | ht <;> rw [ht, hr]
    · exact Or.inl rfl
    · exact Or.inl rfl
    · exact Or.inl rfl
    · right
      show LogScore.fin (1 * 1) = LogScore.fin 1
      rw [mul_one]

theorem score_binary_of_certain (s : State) (col : Nat) (S : List (List Nat))
    (hp : s._binary_probs.getD col 0 = 0 ∨ s._binary_probs.getD col 0 = 1) :
    score_binary s col S = LogScore.zero := by
  have hsum := sum_of_zero_or_one
    (S.map (fun geneset => gsl_ran_binomial_pdf (count_hits s._expression col geneset)
      (s._binary_probs.getD col 0) (to_unsigned (int_cast (s._binary_sums.getD col 0)))))
    (by
      intro x hx
      simp only [List.mem_map] at hx
      obtain ⟨g, _, rfl⟩ := hx
      exact gsl_ran_binomial_pdf_zero_or_one _ _ _ hp)
  rw [List.map_map] at hsum
  unfold score_binary
  simp only [score_binary_loop_eq_sum]
  simp only [Function.comp_def] at hsum
  rcases hsum with h | h <;> rw [h] <;> rfl

theorem success_count_of_all_zero (m : MatrixXd) (col : Nat)
    (h : ∀ r, r < m.rows → m.coeff r col = 0) : success_count m col = 0 := by
  unfold success_count
  rw [List.length_eq_zero, List.filter_eq_nil_iff]
  intro r hr
  simp [h r (List.mem_range.mp hr)]

theorem success_count_of_all_one (m : MatrixXd) (col : Nat)
    (h : ∀ r, r < m.rows → m.coeff r col = 1) : success_count m col = m.rows := by
  unfold success_count
  have : (List.range m.rows).filter (fun r => decide (m.coeff r col > 0)) = List.range m.rows := by
    rw [List.filter_eq_self]
    intro r hr
    simp [h r (List.mem_range.mp hr)]
  rw [this, List.length_range]

/-- C19: for a column of a binary matrix that is constant, no gene active or every gene active,
`score_binary`, with the column statistics of lines 73-74, returns `0.0` for every collection of
genesets, so the column is reported as pvalue 1.0, nulls_observed 0, nulls_tested 0 without any
trial. -/
theorem constant_column_is_skipped (s : State) (col : Nat)
    (hcol : col < s._expression.cols)
    (hconst : (∀ r, r < s._expression.rows → s._expression.coeff r col = 0)
      ∨ (∀ r, r < s._expression.rows → s._expression.coeff r col = 1)) :
    (∀ S, score_binary (binary_stats s) col S = LogScore.zero)
    ∧ ∀ g name, (binary_stats s)._col_names[col]? = some name →
        test_column (binary_stats s) g col = some (⟨name, 1, 0, 0⟩, binary_stats s, g) := by
  have hp : (binary_stats s)._binary_probs.getD col 0 = 0
      ∨ (binary_stats s)._binary_probs.getD col 0 = 1 := by
    rcases hconst with h | h
    · left
      rw [binary_stats_probs s col hcol (fun r hr => Or.inl (h r hr)),
        success_count_of_all_zero _ _ h]
      simp
    · rw [binary_stats_probs s col hcol (fun r hr => Or.inr (h r hr)),
        success_count_of_all_one _ _ h]
      by_cases hr : s._expression.rows = 0
      · left; simp [hr]
      · right
        have : (s._expression.rows : ℚ) ≠ 0 := by exact_mod_cast hr
        exact div_self this
  have hscore : ∀ S, score_binary (binary_stats s) col S = LogScore.zero :=
    fun S => score_binary_of_certain _ col S hp
  refine ⟨hscore, fun g name hname => ?_⟩
  unfold test_column
  simp only [hscore, hname]
  rfl

theorem constant_column_is_skipped_witness :
    1 < two_column_state._expression.cols
    ∧ (∀ r, r < two_column_state._expression.rows → two_column_state._expression.coeff r 1 = 0)
    ∧ (∀ S, score_binary (binary_stats two_column_state) 1 S = LogScore.zero)
    ∧ test_column (binary_stats two_column_state) ⟨fun n => n, 3⟩ 1
        = some (⟨"c1", 1, 0, 0⟩, binary_stats two_column_state, ⟨fun n => n, 3⟩) :=
  have hz : ∀ r, r < two_column_state._expression.rows →
      two_column_state._expression.coeff r 1 = 0 :=
    fun r _ => by simp [two_column_state, binary_stats]
  ⟨by decide, hz,
    (constant_column_is_skipped two_column_state 1 (by decide) (Or.inl hz)).1,
    (constant_column_is_skipped two_column_state 1 (by decide) (Or.inl hz)).2
      ⟨fun n => n, 3⟩ "c1" (by decide)⟩

/-! ## Lemmas on the slop -/

theorem mem_query_of_wider (index : List (String × IntervalTree)) (c : String)
    (a b a2 b2 : Int) (ha : a2 ≤ a) (hb : b ≤ b2) (iv : Interval)
    (h : iv ∈ query index c a b) : iv ∈ query index c a2 b2 := by
  unfold query at h ⊢
  cases hf : map_find index c with
  | none => simp [hf] at h
  | some t =>
    simp only [hf, IntervalTree.findOverlapping, List.nil_append, List.mem_filter,
      decide_eq_true_eq] at h ⊢
    exact ⟨h.1, by omega, by omega⟩

/-- C20: overlap resolution is monotone in the slop: for slops `s <= s2` every interval resolved
with slop `s` is resolved with slop `s2`, by `report_user_snp_genes` and by `bin_genesets` alike,
so a variant with a non-empty geneset at slop `s` has one at every larger slop. -/
theorem resolveOverlaps_mono_slop (index : List (String × IntervalTree)) (name : String)
    (iv : genomic_interval) (s s2 : Int) (hs : s ≤ s2) :
    (∀ x ∈ resolveOverlaps index iv.chrom iv.start iv.end_ s,
        x ∈ resolveOverlaps index iv.chrom iv.start iv.end_ s2)
    ∧ (∀ x ∈ (report_user_snp_genes_overlaps index iv s).2,
        x ∈ (report_user_snp_genes_overlaps index iv s2).2)
    ∧ (∀ x ∈ (bin_genesets_overlaps index (name, iv) s).2,
        x ∈ (bin_genesets_overlaps index (name, iv) s2).2)
    ∧ (∀ g ∈ resolved_genes index iv s, g ∈ resolved_genes index iv s2)
    ∧ (resolved_genes index iv s ≠ [] → resolved_genes index iv s2 ≠ []) := by
  have hmain : ∀ x ∈ resolveOverlaps index iv.chrom iv.start iv.end_ s,
      x ∈ resolveOverlaps index iv.chrom iv.start iv.end_ s2 := by
    intro x hx
    unfold resolveOverlaps at hx ⊢
    by_cases h0 : query index iv.chrom iv.start iv.end_ = []
    · simp only [h0, if_true] at hx ⊢
      refine mem_query_of_wider index iv.chrom _ _ _ _ ?_ ?_ x hx
      · exact max_le_max (le_refl 1) (by omega)
      · omega
    · simpa only [h0, if_false] using hx
  have hgenes : ∀ g ∈ resolved_genes index iv s, g ∈ resolved_genes index iv s2 := by
    intro g hg
    simp only [resolved_genes, List.mem_map] at hg ⊢
    obtain ⟨x, hx, rfl⟩ := hg
    exact ⟨x, hmain x hx, rfl⟩
  refine ⟨hmain, ?_, ?_, hgenes, ?_⟩
  · simpa only [report_user_snp_genes_overlaps_snd] using hmain
  · simpa only [bin_genesets_overlaps_snd] using hmain
  · intro hne
    obtain ⟨g, hg⟩ := List.exists_mem_of_ne_nil _ hne
    exact List.ne_nil_of_mem (hgenes g hg)

theorem resolveOverlaps_mono_slop_witness :
    (50 : Int) ≤ 150
    ∧ resolved_genes one_gene_index ⟨"chr1", 300, 310⟩ 50 = []
    ∧ resolved_genes one_gene_index ⟨"chr1", 300, 310⟩ 150 = [0]
    ∧ (∀ g ∈ resolved_genes one_gene_index ⟨"chr1", 300, 310⟩ 50,
        g ∈ resolved_genes one_gene_index ⟨"chr1", 300, 310⟩ 150)
    ∧ (150 : Int) ≤ 400
    ∧ (resolved_genes one_gene_index ⟨"chr1", 300, 310⟩ 150 ≠ [] →
        resolved_genes one_gene_index ⟨"chr1", 300, 310⟩ 400 ≠ []) :=
  ⟨by decide, by decide, by decide,
    (resolveOverlaps_mono_slop one_gene_index "rs1" ⟨"chr1", 300, 310⟩ 50 150 (by decide)).2.2.2.1,
    by decide,
    (resolveOverlaps_mono_slop one_gene_index "rs1" ⟨"chr1", 300, 310⟩ 150 400
      (by decide)).2.2.2.2⟩

end snpspec
